import Mathlib

/-!
Verification of the incremental article processor
(`scripts/process_articles.py`) of the Kidder repository.

The Python source is shallowly embedded: every definition below is a
direct translation of the corresponding Python function; strings are
processed as lists of characters, Python's `None`-able values are
`Option`s, exceptions are `Except`, and the external collaborators
(text extraction, the inference service, the clock) enter the run as
explicit input data, since the program consumes their results as plain
values.  Unicode-dependent character classes (`\w`, `\s`, `str.strip`)
are embedded over their standard character sets; every input that the
claims exercise here is in that range.
-/

namespace Kidder

open List (Perm)

/-! ### Python values (results of `json.loads`) and their truthiness -/

/-- A Python/JSON value as produced by `json.loads` on the inference
response.  Floats are not modelled (no claim touches them). -/
inductive PyVal where
  | none
  | bool (b : Bool)
  | int (n : Int)
  | str (s : String)
  | list (xs : List PyVal)
  | dict (xs : List (String × PyVal))

/-- Python truthiness of a value (`bool(v)`). -/
def pyTruthy : PyVal → Bool
  | .none => false
  | .bool b => b
  | .int n => n != 0
  | .str s => s != ""
  | .list xs => !xs.isEmpty
  | .dict xs => !xs.isEmpty

/-- Embeds `dict.get(k)` on a JSON object: the value at key `k`, else `None`. -/
def pyGet (m : List (String × PyVal)) (k : String) : PyVal :=
  match m.find? (fun kv => kv.1 == k) with
  | some kv => kv.2
  | Option.none => PyVal.none

/-! ### Character classes and string helpers -/

/-- Characters stripped by `str.strip()` and matched by the regex class
`\s` (whitespace). -/
def pyIsSpace (c : Char) : Bool :=
  c = ' ' || c = '\t' || c = '\n' || c = '\r' || c = '\x0b' || c = '\x0c' ||
  c = '\x1c' || c = '\x1d' || c = '\x1e' || c = '\x1f' || c = '\x85' || c = '\xa0'

/-- Characters matched by the regex class `\w` (word characters). -/
def isWordChar (c : Char) : Bool := c.isAlphanum || c = '_'

/-- Embeds `str.strip()`: remove leading and trailing whitespace. -/
def pyStrip (s : String) : String :=
  ⟨((s.data.dropWhile pyIsSpace).reverse.dropWhile pyIsSpace).reverse⟩

/-- Python `a or b` on strings: `a` when non-empty, else `b`. -/
def strOr (a b : String) : String := if a = "" then b else a

/-- Characters matched by the regex class `\d` (decimal digits). -/
def isDigitCh (c : Char) : Bool := 48 ≤ c.toNat && c.toNat ≤ 57

/-- Digit value of a character. -/
def dval (c : Char) : Nat := c.toNat - 48

/-! ### `normalize_whitespace` and `word_count` -/

/-- Step 1 of `normalize_whitespace`: `.replace("\r\n", "\n").replace("\r", "\n")`
— every `\r\n` pair and every lone `\r` becomes a single `\n`. -/
def crlfGo : List Char → List Char
  | [] => []
  | '\r' :: '\n' :: rest => '\n' :: crlfGo rest
  | '\r' :: rest => '\n' :: crlfGo rest
  | c :: rest => c :: crlfGo rest

/-- Step 2: `re.sub(r"[ \t]+", " ", s)` — collapse runs of spaces/tabs to
one space.  The flag records whether the previous character was in a run. -/
def hspaceGo : Bool → List Char → List Char
  | _, [] => []
  | inRun, c :: rest =>
    if c = ' ' || c = '\t' then
      (if inRun then [] else [' ']) ++ hspaceGo true rest
    else c :: hspaceGo false rest

/-- Step 3: `re.sub(r"\n{3,}", "\n\n", s)` — collapse runs of three or
more newlines to exactly two.  The counter is the length of the current
newline run already emitted-from. -/
def nlGo : Nat → List Char → List Char
  | _, [] => []
  | k, c :: rest =>
    if c = '\n' then
      (if k ≥ 2 then [] else ['\n']) ++ nlGo (k + 1) rest
    else c :: nlGo 0 rest

/-- Embeds `normalize_whitespace` from the source: unify line endings, collapse
horizontal whitespace, collapse 3+ newlines to 2, strip. -/
def normalize_whitespace (s : String) : String :=
  pyStrip ⟨nlGo 0 (hspaceGo false (crlfGo s.data))⟩

/-- Counts maximal word-character runs; the flag records whether the
previous character was a word character. -/
def wcGo : Bool → List Char → Nat
  | _, [] => 0
  | inW, c :: rest =>
    if isWordChar c then (if inW then 0 else 1) + wcGo true rest
    else wcGo false rest

/-- Embeds `word_count` from the source: `len(re.findall(r"\b\w+\b", text))`,
the number of maximal word-character runs. -/
def word_count (text : String) : Nat := wcGo false text.data

/-! ### `Path(name).stem` -/

/-- Index of the last `'.'` in a character list, if any. -/
def lastDotIdx : List Char → Option Nat
  | [] => Option.none
  | c :: rest =>
    match lastDotIdx rest with
    | some i => some (i + 1)
    | Option.none => if c = '.' then some 0 else Option.none

/-- Embeds `pathlib.Path(name).stem`: the name without its suffix; a suffix
exists exactly when the last dot sits at an index `i` with
`0 < i < len - 1`. -/
def pathStem (name : String) : String :=
  let cs := name.data
  match lastDotIdx cs with
  | some i => if 0 < i ∧ i + 1 < cs.length then ⟨cs.take i⟩ else name
  | Option.none => name

/-! ### Calendar validation (`datetime(y, mo, d)`) and `strftime("%Y-%m-%d")` -/

/-- Gregorian leap-year test. -/
def isLeap (y : Nat) : Bool := y % 4 = 0 && (y % 100 != 0 || y % 400 = 0)

/-- Days in a month. -/
def daysInMonth (y mo : Nat) : Nat :=
  if mo = 2 then (if isLeap y then 29 else 28)
  else if mo = 4 || mo = 6 || mo = 9 || mo = 11 then 30
  else 31

/-- Validity of `datetime(y, mo, d)` (the year range 1..9999 is implied
by the callers, whose years are always 20xx). -/
def validDate (y mo d : Nat) : Bool :=
  1 ≤ mo && mo ≤ 12 && 1 ≤ d && d ≤ daysInMonth y mo

/-- Left-pad a number to two digits (`strftime` `%m` / `%d`). -/
def pad2 (n : Nat) : String := if n < 10 then "0" ++ toString n else toString n

/-- Embeds `datetime(y, mo, d).strftime("%Y-%m-%d")` for four-digit years. -/
def fmtDate (y mo d : Nat) : String :=
  toString y ++ "-" ++ pad2 mo ++ "-" ++ pad2 d

/-! ### `parse_date_from_filename`

Hand-compiled matchers for the two patterns
`(20\d{2})[-_](\d{1,2})[-_](\d{1,2})` and
`(\d{1,2})[-_](\d{1,2})[-_](20\d{2})`, with `re.search`'s
leftmost-match, greedy-with-backtracking semantics.  Note the
quantifiers here never need cross-group backtracking: a digit is never
a separator. -/

/-- Is `c` one of the separators `[-_]`? -/
def isSep (c : Char) : Bool := c = '-' || c = '_'

/-- Match `(\d{1,2})[-_]` at the head: greedily two digits then a
separator, else one digit then a separator.  Returns the group value
and the rest after the separator. -/
def matchDDSep : List Char → Option (Nat × List Char)
  | c1 :: c2 :: c3 :: rest =>
    if isDigitCh c1 && isDigitCh c2 && isSep c3 then some (10 * dval c1 + dval c2, rest)
    else if isDigitCh c1 && isSep c2 then some (dval c1, c3 :: rest)
    else Option.none
  | [c1, c2] => if isDigitCh c1 && isSep c2 then some (dval c1, []) else Option.none
  | _ => Option.none

/-- Match a trailing `(\d{1,2})` at the head: greedily two digits else one. -/
def matchD1or2 : List Char → Option Nat
  | c1 :: c2 :: _ =>
    if isDigitCh c1 && isDigitCh c2 then some (10 * dval c1 + dval c2)
    else if isDigitCh c1 then some (dval c1) else Option.none
  | [c1] => if isDigitCh c1 then some (dval c1) else Option.none
  | [] => Option.none

/-- Match `(20\d{2})[-_](\d{1,2})[-_](\d{1,2})` at the head. -/
def matchIsoAt : List Char → Option (Nat × Nat × Nat)
  | c0 :: cz :: c1 :: c2 :: c3 :: rest =>
    if c0 = '2' && cz = '0' && isDigitCh c1 && isDigitCh c2 && isSep c3 then
      match matchDDSep rest with
      | some (mo, r2) =>
        match matchD1or2 r2 with
        | some d => some (2000 + 10 * dval c1 + dval c2, mo, d)
        | Option.none => Option.none
      | Option.none => Option.none
    else Option.none
  | _ => Option.none

/-- Match `(\d{1,2})[-_](\d{1,2})[-_](20\d{2})` at the head (the year is
returned first). -/
def matchUsAt (cs : List Char) : Option (Nat × Nat × Nat) :=
  match matchDDSep cs with
  | some (mo, r1) =>
    match matchDDSep r1 with
    | some (d, r2) =>
      match r2 with
      | c0 :: cz :: c1 :: c2 :: _ =>
        if c0 = '2' && cz = '0' && isDigitCh c1 && isDigitCh c2 then
          some (2000 + 10 * dval c1 + dval c2, mo, d)
        else Option.none
      | _ => Option.none
    | Option.none => Option.none
  | Option.none => Option.none

/-- The `re.search` scan for the ISO-like pattern: leftmost position wins. -/
def searchIso : List Char → Option (Nat × Nat × Nat)
  | [] => Option.none
  | c :: rest =>
    match matchIsoAt (c :: rest) with
    | some r => some r
    | Option.none => searchIso rest

/-- The `re.search` scan for the US-ordered pattern: leftmost position wins. -/
def searchUs : List Char → Option (Nat × Nat × Nat)
  | [] => Option.none
  | c :: rest =>
    match matchUsAt (c :: rest) with
    | some r => some r
    | Option.none => searchUs rest

/-- Validate the US-pattern's first match, as the source does: only the
leftmost match is checked against the calendar. -/
def fromUsPattern (base : List Char) : Option String :=
  match searchUs base with
  | some (y, mo, d) => if validDate y mo d then some (fmtDate y mo d) else Option.none
  | Option.none => Option.none

/-- Embeds `parse_date_from_filename` from the source: try the ISO-like pattern
on the stem, validate only its first match, then fall through to the
US-ordered pattern likewise; `None` when both fail. -/
def parse_date_from_filename (name : String) : Option String :=
  match searchIso (pathStem name).data with
  | some (y, mo, d) =>
    if validDate y mo d then some (fmtDate y mo d) else fromUsPattern (pathStem name).data
  | Option.none => fromUsPattern (pathStem name).data

/-! ### `parse_date_from_text`

Hand-compiled matcher for the long-form pattern
`\b(Jan|January|...|December)\.?\s+(\d{1,2})(?:st|nd|rd|th)?,\s+(20\d{2})\b`
with `re.IGNORECASE`, searched over the first 20 lines of the text. -/

/-- Line-break characters recognised by `str.splitlines()`. -/
def isLineBreak (c : Char) : Bool :=
  c = '\n' || c = '\r' || c = '\x0b' || c = '\x0c' ||
  c = '\x1c' || c = '\x1d' || c = '\x1e' || c = '\x85' || c = '\u2028' || c = '\u2029'

/-- Worker for `str.splitlines()`; `acc` is the current line reversed. -/
def splitlinesGo : List Char → List Char → List (List Char)
  | [], acc => if acc.isEmpty then [] else [acc.reverse]
  | '\r' :: '\n' :: rest, acc => acc.reverse :: splitlinesGo rest []
  | c :: rest, acc =>
    if isLineBreak c then acc.reverse :: splitlinesGo rest []
    else splitlinesGo rest (c :: acc)

/-- Embeds `text.splitlines()` over character lists. -/
def splitlinesChars (cs : List Char) : List (List Char) := splitlinesGo cs []

/-- Embeds the join `"\n".join(lines)` over character lists. -/
def joinNL : List (List Char) → List Char
  | [] => []
  | [l] => l
  | l :: ls => l ++ '\n' :: joinNL ls

/-- The month alternatives of the pattern, in the pattern's order. -/
def monthAlts : List String :=
  ["Jan", "January", "Feb", "February", "Mar", "March", "Apr", "April", "May",
   "Jun", "June", "Jul", "July", "Aug", "August", "Sep", "Sept", "September",
   "Oct", "October", "Nov", "November", "Dec", "December"]

/-- The `month_map` of the source, from lowered three-letter keys. -/
def month_map : List (String × Nat) :=
  [("jan", 1), ("feb", 2), ("mar", 3), ("apr", 4), ("may", 5), ("jun", 6),
   ("jul", 7), ("aug", 8), ("sep", 9), ("oct", 10), ("nov", 11), ("dec", 12)]

/-- Case-insensitive literal match at the head; returns the rest. -/
def ciStarts : List Char → List Char → Option (List Char)
  | [], cs => some cs
  | _ :: _, [] => Option.none
  | p :: ps, c :: cs => if p.toLower = c.toLower then ciStarts ps cs else Option.none

/-- Match `\s+` at the head: at least one whitespace character, greedily
(the next pattern element is never whitespace, so no backtracking). -/
def spaces1 : List Char → Option (List Char)
  | c :: rest => if pyIsSpace c then some (rest.dropWhile pyIsSpace) else Option.none
  | [] => Option.none

/-- Is the lowered pair an ordinal suffix `st|nd|rd|th`? -/
def isOrdPair (a b : Char) : Bool :=
  (a.toLower = 's' && b.toLower = 't') || (a.toLower = 'n' && b.toLower = 'd') ||
  (a.toLower = 'r' && b.toLower = 'd') || (a.toLower = 't' && b.toLower = 'h')

/-- Match `(?:st|nd|rd|th)?,` at the head: greedily try an ordinal
suffix followed by the comma, falling back to the bare comma. -/
def sufComma : List Char → Option (List Char)
  | a :: b :: rest =>
    if isOrdPair a b then
      match rest with
      | ',' :: r2 => some r2
      | _ => if a = ',' then some (b :: rest) else Option.none
    else if a = ',' then some (b :: rest) else Option.none
  | [a] => if a = ',' then some [] else Option.none
  | [] => Option.none

/-- Match `(\d{1,2})(?:st|nd|rd|th)?,` at the head: greedily two day
digits, backtracking to one if the suffix-and-comma then fails. -/
def dayPart : List Char → Option (Nat × List Char)
  | c1 :: rest =>
    if isDigitCh c1 then
      match rest with
      | c2 :: rest2 =>
        if isDigitCh c2 then
          match sufComma rest2 with
          | some r => some (10 * dval c1 + dval c2, r)
          | Option.none =>
            match sufComma (c2 :: rest2) with
            | some r => some (dval c1, r)
            | Option.none => Option.none
        else
          match sufComma (c2 :: rest2) with
          | some r => some (dval c1, r)
          | Option.none => Option.none
      | [] => Option.none
    else Option.none
  | [] => Option.none

/-- Match `(20\d{2})\b` at the head. -/
def yearBound : List Char → Option Nat
  | c0 :: cz :: c1 :: c2 :: rest =>
    if c0 = '2' && cz = '0' && isDigitCh c1 && isDigitCh c2 &&
       (match rest with | [] => true | c :: _ => !isWordChar c) then
      some (2000 + 10 * dval c1 + dval c2)
    else Option.none
  | _ => Option.none

/-- Match the optional dot `\.?` after a month name.  Consuming a
present dot commits (a dot is never whitespace, so skipping it can
never let the following `\s+` succeed). -/
def dropDot : List Char → List Char
  | '.' :: r => r
  | cs => cs

/-- Match `\.?\s+(\d{1,2})(?:st|nd|rd|th)?,\s+(20\d{2})\b` after a month
name. -/
def afterMonth (cs : List Char) : Option (Nat × Nat) :=
  match spaces1 (dropDot cs) with
  | some cs2 =>
    match dayPart cs2 with
    | some (d, cs3) =>
      match spaces1 cs3 with
      | some cs4 =>
        match yearBound cs4 with
        | some y => some (d, y)
        | Option.none => Option.none
      | Option.none => Option.none
    | Option.none => Option.none
  | Option.none => Option.none

/-- Try the month alternatives in pattern order at this position; on a
prefix match whose continuation fails, backtrack to later alternatives. -/
def tryMonths : List String → List Char → Option (String × Nat × Nat)
  | [], _ => Option.none
  | alt :: alts, cs =>
    match ciStarts alt.data cs with
    | some rest =>
      match afterMonth rest with
      | some (d, y) => some (alt, d, y)
      | Option.none => tryMonths alts cs
    | Option.none => tryMonths alts cs

/-- The `re.search` scan for the long-form pattern.  The flag records
whether the previous character is a word character: the leading `\b`
can only hold when it is not (month names start with letters). -/
def scanMonths : List Char → Bool → Option (String × Nat × Nat)
  | [], _ => Option.none
  | c :: rest, prevW =>
    match (if prevW then Option.none else tryMonths monthAlts (c :: rest)) with
    | some r => some r
    | Option.none => scanMonths rest (isWordChar c)

/-- Look a lowered key up in `month_map`. -/
def monthLookup (k : String) : Option Nat :=
  match month_map.find? (fun kv => kv.1 == k) with
  | some kv => some kv.2
  | Option.none => Option.none

/-- Lower-case a string (ASCII, as the pattern's letters are ASCII). -/
def pyLower (s : String) : String := ⟨s.data.map Char.toLower⟩

/-- Embeds `parse_date_from_text` from the source: search the first 20 lines
for the long-form pattern; only the first match is validated against
`month_map` and the calendar. -/
def parse_date_from_text (text : String) : Option String :=
  match scanMonths (joinNL ((splitlinesChars text.data).take 20)) false with
  | some (alt, d, y) =>
    match monthLookup ((pyLower alt).take 3) with
    | some mo => if validDate y mo d then some (fmtDate y mo d) else Option.none
    | Option.none => Option.none
  | Option.none => Option.none

/-! ### Response handling (`openai_infer`'s caller, lines 257–263)

`openai_infer` itself is an external call; the run consumes its outcome
as data: either the parsed JSON object or the message of the exception
raised by the call / by `json.loads`.  The field handling below is the
`try`-block's, including the `AttributeError` that `.strip()` raises on
a truthy non-string value. -/

/-- Embeds `(v or "").strip()`: a falsy value falls back to `""`; `.strip()`
on a non-string raises. -/
def stripOrEmpty (v : PyVal) : Except String String :=
  match (if pyTruthy v then v else PyVal.str "") with
  | .str s => Except.ok (pyStrip s)
  | _ => Except.error "AttributeError: strip"

/-- Embeds `(meta.get(k) or "").strip()`. -/
def getStrField (meta : List (String × PyVal)) (k : String) : Except String String :=
  stripOrEmpty (pyGet meta k)

/-- Embeds `meta.get("topics") or []` followed by the `isinstance(topics, list)`
check replacing a non-list with `[]`. -/
def extractTopics (v : PyVal) : List PyVal :=
  let t0 := if pyTruthy v then v else PyVal.list []
  match t0 with
  | .list xs => xs
  | _ => []

/-- Embeds `[t.strip() for t in topics if isinstance(t, str) and t.strip()]`. -/
def cleanTopics (xs : List PyVal) : List String :=
  xs.filterMap (fun t =>
    match t with
    | .str s => if pyStrip s = "" then Option.none else some (pyStrip s)
    | _ => Option.none)

/-- The metadata fields extracted from one inference response. -/
structure MetaOut where
  title : String
  dateAi : String
  summary : String
  topics : List String
deriving DecidableEq, Repr

/-- Lines 258–263 of the source: title with stem fallback, date and
summary with empty-string fallback, topics with list fallback and
trimming.  Any raised `AttributeError` aborts the document. -/
def runMeta (stemS : String) (meta : List (String × PyVal)) : Except String MetaOut := do
  let t0 ← getStrField meta "title"
  let title := strOr t0 stemS
  let dateAi ← getStrField meta "date"
  let summary ← getStrField meta "summary"
  let topics := cleanTopics (extractTopics (pyGet meta "topics"))
  Except.ok { title := title, dateAi := dateAi, summary := summary, topics := topics }

/-! ### Deterministic date resolution (lines 254, 265–266) -/

/-- Line 254: `parse_date_from_filename(p.name) or parse_date_from_text(text) or ""`. -/
def date_guess (name text : String) : String :=
  strOr ((parse_date_from_filename name).getD "") (strOr ((parse_date_from_text text).getD "") "")

/-- Line 265: `date_guess or date_ai or ""`. -/
def final_date (name text dateAi : String) : String :=
  strOr (date_guess name text) (strOr dateAi "")

/-- Line 266: `"filename/text" if date_guess else ("ai" if date_ai else "")`. -/
def date_source (name text dateAi : String) : String :=
  if date_guess name text ≠ "" then "filename/text"
  else if dateAi ≠ "" then "ai" else ""

/-! ### The data model of one run -/

/-- An Article record as built at lines 268–279. -/
structure Article where
  sourceFile : String
  title : String
  date : String
  dateISO : String
  dateSource : String
  summary : String
  topics : List String
  wordCount : Nat
  text : String
  updatedAt : String
deriving DecidableEq, Repr

/-- An entry of the run's error list (`{"file": …, "error": …}`). -/
structure ErrRec where
  file : String
  error : String
deriving DecidableEq, Repr

/-- The persisted output collection (`data.json`): generation
timestamp, article sequence, error list. -/
structure Payload where
  generatedAt : String
  articles : List Article
  errors : List ErrRec
deriving DecidableEq, Repr

/-- One source document as the run observes it: name and content hash
from the folder, the two extraction results (the external converter and
the fallback reader), the inference outcome for its text, and the clock
reading taken when its Article is built. -/
structure FileInput where
  name : String
  hash : String
  pandocText : String
  fallbackText : String
  inferResp : Except String (List (String × PyVal))
  procTime : String

/-- The CLI toggles that the reconciliation core consults. -/
structure RunConfig where
  resume : Bool
  prune : Bool
deriving DecidableEq, Repr

/-- The in-memory run state mutated by the per-document loop. -/
structure Acc where
  articles : List Article
  state : List (String × String)
  errors : List ErrRec
  processed : Nat
  updated : Nat
  missingRows : List (String × String × Nat)
deriving DecidableEq, Repr

/-! ### Dict and list operations -/

/-- Python `dict` update `m[k] = v` on an insertion-ordered map:
replace in place when the key exists, else append. -/
def dictUpsert {β : Type} (m : List (String × β)) (k : String) (v : β) : List (String × β) :=
  if m.any (fun kv => kv.1 == k) then
    m.map (fun kv => if kv.1 == k then (k, v) else kv)
  else m ++ [(k, v)]

/-- Embeds the lookup `state.get("files", ...).get(name, "")`. -/
def lookupD (m : List (String × String)) (k : String) : String :=
  match m.find? (fun kv => kv.1 == k) with
  | some kv => kv.2
  | Option.none => ""

/-- Replace the first article with this `sourceFile` (the linear scan of
lines 281–285 breaks at the first hit). -/
def replaceFirst : List Article → Article → List Article
  | [], _ => []
  | x :: xs, a => if x.sourceFile == a.sourceFile then a :: xs else x :: replaceFirst xs a

/-- Lines 281–292: upsert-by-key — replace the first Article with the
same `sourceFile`, else append. -/
def upsertArticle (arts : List Article) (a : Article) : List Article :=
  if arts.any (fun x => x.sourceFile == a.sourceFile) then replaceFirst arts a
  else arts ++ [a]

/-- Lines 312–316: rebuild a dict keyed by `sourceFile` (skipping falsy
keys) and take its values — one Article per key, last write wins,
first-occurrence order. -/
def dedupArticles (arts : List Article) : List Article :=
  (arts.foldl
    (fun m a => if a.sourceFile == "" then m else dictUpsert m a.sourceFile a)
    []).map (fun kv => kv.2)

/-- Python string `<`: lexicographic comparison by code point. -/
def chsLt : List Char → List Char → Bool
  | [], [] => false
  | [], _ :: _ => true
  | _ :: _, [] => false
  | a :: as, b :: bs =>
    if a.toNat < b.toNat then true
    else if b.toNat < a.toNat then false
    else chsLt as bs

/-- Python `s1 < s2` on strings. -/
def strLtB (a b : String) : Bool := chsLt a.data b.data

/-- Python `s1 <= s2` on strings (total order: not `s2 < s1`). -/
def strLeB (a b : String) : Bool := !(chsLt b.data a.data)

/-- Python tuple comparison on the sort key
`(x.get("date") or "", x.get("title") or "")`. -/
def pairLe (p q : String × String) : Bool :=
  if p.1 = q.1 then strLeB p.2 q.2 else strLtB p.1 q.1

/-- The sort key of lines 318–322. -/
def akey (a : Article) : String × String := (a.date, a.title)

/-- The comparison `sorted(..., reverse=True)` realises: `x` may precede
`y` exactly when `akey y ≤ akey x`. -/
def artLe (x y : Article) : Bool := pairLe (akey y) (akey x)

/-- Stable descending insertion: `x` walks past every earlier element
whose key is at least its own (ties keep the earlier element first) and
sits before the first strictly smaller key. -/
def insertDesc (x : Article) : List Article → List Article
  | [] => [x]
  | y :: ys => if artLe y x then y :: insertDesc x ys else x :: y :: ys

/-- Lines 318–322: `sorted(..., key=lambda x: (date, title), reverse=True)`.
Python's `sorted` is specified as the stable sort for the comparison,
which a stable insertion sort computes; insertion keeps the output
sorted and inserts each later element after all equal keys. -/
def sortArticles (arts : List Article) : List Article :=
  arts.foldl (fun acc x => insertDesc x acc) []

/-- Lines 201–211: with `--prune`, drop every Article whose truthy
`sourceFile` is not among the current folder's names. -/
def pruneArticles (names : List String) (arts : List Article) : List Article :=
  arts.filter (fun a => !(a.sourceFile != "" && !names.contains a.sourceFile))

/-! ### The per-document loop body (lines 231–310) and the run -/

/-- The body of the `for` loop over the folder's documents. -/
def stepFile (cfg : RunConfig) (acc : Acc) (f : FileInput) : Acc :=
  let prevHash := lookupD acc.state f.name
  if cfg.resume && (prevHash == f.hash) then acc
  else
    let text := normalize_whitespace (if f.pandocText == "" then f.fallbackText else f.pandocText)
    let wc := word_count text
    if wc == 0 then { acc with state := dictUpsert acc.state f.name f.hash }
    else
      match f.inferResp.bind (fun meta => runMeta (pathStem f.name) meta) with
      | Except.ok mo =>
        let fd := final_date f.name text mo.dateAi
        let article : Article :=
          { sourceFile := f.name, title := mo.title, date := fd, dateISO := fd,
            dateSource := date_source f.name text mo.dateAi, summary := mo.summary,
            topics := mo.topics, wordCount := wc, text := text, updatedAt := f.procTime }
        { acc with
          articles := upsertArticle acc.articles article,
          updated := acc.updated + 1,
          processed := acc.processed + 1,
          missingRows :=
            if fd = "" then acc.missingRows ++ [(f.name, mo.title, wc)] else acc.missingRows,
          state := dictUpsert acc.state f.name f.hash }
      | Except.error e =>
        { acc with
          errors := acc.errors ++ [{ file := f.name, error := e }],
          state := dictUpsert acc.state f.name f.hash }

/-- The outcome of one run: the written collection, the rewritten
fingerprint state, the missing-date rows, and the reported counters. -/
structure RunResult where
  payload : Payload
  state : List (String × String)
  missingRows : List (String × String × Nat)
  processed : Nat
  updated : Nat
deriving DecidableEq, Repr

/-- Lines 190–196: the carried-forward article list — the prior output's
articles when resuming and the output file exists, else empty. -/
def carriedArticles (cfg : RunConfig) (prior : Option Payload) : List Article :=
  match prior with
  | some pl => if cfg.resume then pl.articles else []
  | Option.none => []

/-- The in-memory state at the top of the per-document loop: the carried
(and, with `--prune`, pruned) articles, the loaded fingerprint map, and
empty error/report/counter state (lines 190–229). -/
def runStart (cfg : RunConfig) (state0 : List (String × String)) (prior : Option Payload)
    (files : List FileInput) : Acc :=
  { articles :=
      if cfg.prune then
        pruneArticles (files.map (fun f => f.name)) (carriedArticles cfg prior)
      else carriedArticles cfg prior,
    state := state0, errors := [], processed := 0, updated := 0, missingRows := [] }

def run (cfg : RunConfig) (state0 : List (String × String)) (prior : Option Payload)
    (files : List FileInput) (genTime : String) : RunResult :=
  let acc := files.foldl (stepFile cfg) (runStart cfg state0 prior files)
  { payload :=
      { generatedAt := genTime,
        articles := sortArticles (dedupArticles acc.articles),
        errors := acc.errors },
    state := acc.state,
    missingRows := acc.missingRows,
    processed := acc.processed,
    updated := acc.updated }

/-- The function `main`'s reconciliation pipeline (lines 190–343): process every
document in folder order starting from `runStart`, then dedup, sort,
and assemble the payload.  `state0` is the loaded fingerprint map,
`prior` the output file on disk (when it exists), `genTime` the
`datetime.now()` reading taken for `generatedAt`.

Projection of the run's final article list: -/
theorem run_articles_eq (cfg : RunConfig) (st0 : List (String × String))
    (prior : Option Payload) (files : List FileInput) (t : String) :
    (run cfg st0 prior files t).payload.articles =
      sortArticles (dedupArticles
        ((files.foldl (stepFile cfg) (runStart cfg st0 prior files)).articles)) := rfl

/-- Lines 328–333: the missing-date report — a header row followed by
one row per collected (filename, title, word count) triple. -/
def missingCsv (rows : List (String × String × Nat)) : List (List String) :=
  ["sourceFile", "title", "wordCount"] :: rows.map (fun r => [r.1, r.2.1, toString r.2.2])

/-! ## Lemmas: the deterministic date parsers only produce years 2000–2099 -/

theorem dval_le_of_digit {c : Char} (h : isDigitCh c = true) : dval c ≤ 9 := by
  simp only [isDigitCh, Bool.and_eq_true, decide_eq_true_eq] at h
  simp only [dval]
  omega

theorem matchIsoAt_year {cs : List Char} {y mo d : Nat}
    (h : matchIsoAt cs = some (y, mo, d)) : 2000 ≤ y ∧ y ≤ 2099 := by
  cases cs with
  | nil => simp [matchIsoAt] at h
  | cons c0 t0 =>
  cases t0 with
  | nil => simp [matchIsoAt] at h
  | cons cz t1 =>
  cases t1 with
  | nil => simp [matchIsoAt] at h
  | cons c1 t2 =>
  cases t2 with
  | nil => simp [matchIsoAt] at h
  | cons c2 t3 =>
  cases t3 with
  | nil => simp [matchIsoAt] at h
  | cons c3 rest =>
  simp only [matchIsoAt] at h
  split at h
  · rename_i hcond
    simp only [Bool.and_eq_true, decide_eq_true_eq] at hcond
    have h1 := dval_le_of_digit hcond.1.1.2
    have h2 := dval_le_of_digit hcond.1.2
    split at h
    · split at h
      · simp only [Option.some.injEq, Prod.mk.injEq] at h
        omega
      · simp at h
    · simp at h
  · simp at h

theorem matchUsAt_year {cs : List Char} {y mo d : Nat}
    (h : matchUsAt cs = some (y, mo, d)) : 2000 ≤ y ∧ y ≤ 2099 := by
  unfold matchUsAt at h
  split at h
  · split at h
    · split at h
      · split at h
        · rename_i hcond
          simp only [Bool.and_eq_true, decide_eq_true_eq] at hcond
          have h1 := dval_le_of_digit hcond.1.2
          have h2 := dval_le_of_digit hcond.2
          simp only [Option.some.injEq, Prod.mk.injEq] at h
          omega
        · simp at h
      · simp at h
    · simp at h
  · simp at h

theorem searchIso_year {cs : List Char} {y mo d : Nat}
    (h : searchIso cs = some (y, mo, d)) : 2000 ≤ y ∧ y ≤ 2099 := by
  induction cs with
  | nil => simp [searchIso] at h
  | cons c rest ih =>
    simp only [searchIso] at h
    split at h
    · rename_i heq
      simp only [Option.some.injEq] at h
      subst h
      exact matchIsoAt_year heq
    · exact ih h

theorem searchUs_year {cs : List Char} {y mo d : Nat}
    (h : searchUs cs = some (y, mo, d)) : 2000 ≤ y ∧ y ≤ 2099 := by
  induction cs with
  | nil => simp [searchUs] at h
  | cons c rest ih =>
    simp only [searchUs] at h
    split at h
    · rename_i heq
      simp only [Option.some.injEq] at h
      subst h
      exact matchUsAt_year heq
    · exact ih h

theorem yearBound_range {cs : List Char} {y : Nat}
    (h : yearBound cs = some y) : 2000 ≤ y ∧ y ≤ 2099 := by
  cases cs with
  | nil => simp [yearBound] at h
  | cons c0 t0 =>
  cases t0 with
  | nil => simp [yearBound] at h
  | cons cz t1 =>
  cases t1 with
  | nil => simp [yearBound] at h
  | cons c1 t2 =>
  cases t2 with
  | nil => simp [yearBound] at h
  | cons c2 rest =>
  simp only [yearBound] at h
  split at h
  · rename_i hcond
    simp only [Bool.and_eq_true, decide_eq_true_eq] at hcond
    have h1 := dval_le_of_digit hcond.1.1.2
    have h2 := dval_le_of_digit hcond.1.2
    simp only [Option.some.injEq] at h
    omega
  · simp at h

theorem afterMonth_year {cs : List Char} {d y : Nat}
    (h : afterMonth cs = some (d, y)) : 2000 ≤ y ∧ y ≤ 2099 := by
  unfold afterMonth at h
  split at h
  · split at h
    · split at h
      · split at h
        · rename_i heq
          simp only [Option.some.injEq, Prod.mk.injEq] at h
          obtain ⟨-, rfl⟩ := h
          exact yearBound_range heq
        · simp at h
      · simp at h
    · simp at h
  · simp at h

theorem tryMonths_year {alts : List String} {cs : List Char} {alt : String} {d y : Nat}
    (h : tryMonths alts cs = some (alt, d, y)) : 2000 ≤ y ∧ y ≤ 2099 := by
  induction alts with
  | nil => simp [tryMonths] at h
  | cons a as ih =>
    simp only [tryMonths] at h
    split at h
    · split at h
      · rename_i heq
        simp only [Option.some.injEq, Prod.mk.injEq] at h
        obtain ⟨-, -, rfl⟩ := h
        exact afterMonth_year heq
      · exact ih h
    · exact ih h

theorem scanMonths_year {cs : List Char} {w : Bool} {alt : String} {d y : Nat}
    (h : scanMonths cs w = some (alt, d, y)) : 2000 ≤ y ∧ y ≤ 2099 := by
  induction cs generalizing w with
  | nil => simp [scanMonths] at h
  | cons c rest ih =>
    simp only [scanMonths] at h
    split at h
    · rename_i heq
      simp only [Option.some.injEq] at h
      subst h
      cases w with
      | true => simp at heq
      | false => exact tryMonths_year heq
    · exact ih h

theorem fmtDate_ne_empty (y mo d : Nat) : fmtDate y mo d ≠ "" := by
  intro h
  have hd := congrArg String.data h
  simp [fmtDate, String.data_append] at hd

theorem parse_filename_shape {n s : String}
    (h : parse_date_from_filename n = some s) :
    ∃ y mo d, s = fmtDate y mo d ∧ validDate y mo d = true ∧ 2000 ≤ y ∧ y ≤ 2099 := by
  unfold parse_date_from_filename at h
  have hus : ∀ s', fromUsPattern (pathStem n).data = some s' →
      ∃ y mo d, s' = fmtDate y mo d ∧ validDate y mo d = true ∧ 2000 ≤ y ∧ y ≤ 2099 := by
    intro s' h'
    unfold fromUsPattern at h'
    split at h'
    · rename_i y mo d heq
      split at h'
      · rename_i hval
        simp only [Option.some.injEq] at h'
        exact ⟨y, mo, d, h'.symm, hval, searchUs_year heq⟩
      · simp at h'
    · simp at h'
  split at h
  · rename_i y mo d heq
    split at h
    · rename_i hval
      simp only [Option.some.injEq] at h
      exact ⟨y, mo, d, h.symm, hval, searchIso_year heq⟩
    · exact hus s h
  · exact hus s h

theorem parse_text_shape {t s : String}
    (h : parse_date_from_text t = some s) :
    ∃ y mo d, s = fmtDate y mo d ∧ validDate y mo d = true ∧ 2000 ≤ y ∧ y ≤ 2099 := by
  unfold parse_date_from_text at h
  split at h
  · rename_i alt d y heq
    split at h
    · rename_i mo hmo
      split at h
      · rename_i hval
        simp only [Option.some.injEq] at h
        exact ⟨y, mo, d, h.symm, hval, scanMonths_year heq⟩
      · simp at h
    · simp at h
  · simp at h

/-- The deterministic parsers never return the empty string. -/
theorem parse_filename_ne_empty {n s : String}
    (h : parse_date_from_filename n = some s) : s ≠ "" := by
  obtain ⟨y, mo, d, rfl, -⟩ := parse_filename_shape h
  exact fmtDate_ne_empty y mo d

/-- The deterministic parsers never return the empty string. -/
theorem parse_text_ne_empty {t s : String}
    (h : parse_date_from_text t = some s) : s ≠ "" := by
  obtain ⟨y, mo, d, rfl, -⟩ := parse_text_shape h
  exact fmtDate_ne_empty y mo d

/-- C10: deterministic date resolution only ever recognizes years 2000
through 2099 — every date either the filename parser or the text parser
returns is a valid calendar date rendered by `fmtDate` whose year lies
in 2000..2099; a date with a year outside that range is never produced,
so such documents can only receive a date from the inference service. -/
theorem C10_year_window :
    (∀ n s, parse_date_from_filename n = some s →
      ∃ y mo d, s = fmtDate y mo d ∧ validDate y mo d = true ∧ 2000 ≤ y ∧ y ≤ 2099) ∧
    (∀ t s, parse_date_from_text t = some s →
      ∃ y mo d, s = fmtDate y mo d ∧ validDate y mo d = true ∧ 2000 ≤ y ∧ y ≤ 2099) :=
  ⟨fun _ _ h => parse_filename_shape h, fun _ _ h => parse_text_shape h⟩

/-- Witness for C10 at concrete inputs: a filename-embedded and a
text-embedded date, both recognized, fall in the window. -/
theorem C10_year_window_witness :
    (∃ y mo d, "2024-03-05" = fmtDate y mo d ∧ validDate y mo d = true ∧ 2000 ≤ y ∧ y ≤ 2099) ∧
    (∃ y mo d, "2021-09-05" = fmtDate y mo d ∧ validDate y mo d = true ∧ 2000 ≤ y ∧ y ≤ 2099) :=
  ⟨C10_year_window.1 "2024-03-05.docx" "2024-03-05" (by decide),
   C10_year_window.2 "Sept. 5, 2021 essay" "2021-09-05" (by decide)⟩

/-! ## Lemmas: the per-document step -/

/-- With resume on and a matching fingerprint the step leaves the whole
accumulator untouched (lines 236–239). -/
theorem stepFile_skip (cfg : RunConfig) (acc : Acc) (f : FileInput)
    (hr : cfg.resume = true) (hh : lookupD acc.state f.name = f.hash) :
    stepFile cfg acc f = acc := by
  simp [stepFile, hr, hh]

/-- C2: when the inference call (or the parsing of its response) raises
for a document, the step appends a filename-plus-message record to the
error list, leaves the article collection untouched, still overwrites
the fingerprint entry with the current hash — and a subsequent
incremental-mode step over the unchanged document (same name and hash,
any extraction or inference outcome) is a complete no-op: no new error,
no new Article. -/
theorem C2_inference_error (cfg : RunConfig) (acc : Acc) (f : FileInput) (msg : String)
    (hns : ¬(cfg.resume = true ∧ lookupD acc.state f.name = f.hash))
    (hwc : word_count (normalize_whitespace
      (if f.pandocText == "" then f.fallbackText else f.pandocText)) ≠ 0)
    (herr : f.inferResp = Except.error msg) :
    stepFile cfg acc f =
      { acc with errors := acc.errors ++ [{ file := f.name, error := msg }],
                 state := dictUpsert acc.state f.name f.hash } ∧
    (∀ g : FileInput, g.name = f.name → g.hash = f.hash →
      ∀ cfg2 acc2, cfg2.resume = true → lookupD acc2.state g.name = g.hash →
        stepFile cfg2 acc2 g = acc2) := by
  constructor
  · have hcond : (cfg.resume && (lookupD acc.state f.name == f.hash)) = false := by
      rcases Bool.eq_false_or_eq_true (cfg.resume &&
        (lookupD acc.state f.name == f.hash)) with hc | hc
      · simp only [Bool.and_eq_true, beq_iff_eq] at hc
        exact absurd ⟨hc.1, hc.2⟩ hns
      · exact hc
    have hwc2 : ¬ word_count (normalize_whitespace
        (if f.pandocText = "" then f.fallbackText else f.pandocText)) = 0 := by
      simpa using hwc
    simp [stepFile, hcond, hwc2, herr, Except.bind]
  · intro g hn hh cfg2 acc2 hr2 hlook
    exact stepFile_skip cfg2 acc2 g hr2 hlook

/-- A concrete non-incremental config for witnesses. -/
def cfg0 : RunConfig := { resume := false, prune := false }

/-- A concrete empty accumulator for witnesses. -/
def acc0 : Acc :=
  { articles := [], state := [], errors := [], processed := 0, updated := 0,
    missingRows := [] }

/-- A concrete document whose inference call raises, for the C2 witness. -/
def c2file : FileInput :=
  { name := "a.docx", hash := "h1", pandocText := "hello world", fallbackText := "",
    inferResp := Except.error "boom", procTime := "T1" }

/-- Witness for C2: a concrete failing inference on a non-empty document. -/
theorem C2_inference_error_witness :
    stepFile cfg0 acc0 c2file =
      { acc0 with errors := acc0.errors ++ [{ file := c2file.name, error := "boom" }],
                   state := dictUpsert acc0.state c2file.name c2file.hash } :=
  (C2_inference_error cfg0 acc0 c2file "boom" (by decide) (by decide) rfl).1

/-- C9: a document whose extraction yields zero words after
normalization — in particular one from which both extraction paths
yield empty text — hits the zero-word short-circuit of lines 248–252:
the step neither adds nor updates any Article, records no error and no
report row, never consults the inference outcome (same result for every
inference response), but still sets the fingerprint entry to the
current hash — and a subsequent step over the unchanged document in
incremental mode is a complete no-op for every extraction outcome,
i.e. extraction is not re-invoked. -/
theorem C9_zero_word (cfg : RunConfig) (acc : Acc) (f : FileInput)
    (hwc : word_count (normalize_whitespace
      (if f.pandocText == "" then f.fallbackText else f.pandocText)) = 0)
    (hns : ¬(cfg.resume = true ∧ lookupD acc.state f.name = f.hash)) :
    stepFile cfg acc f = { acc with state := dictUpsert acc.state f.name f.hash } ∧
    (∀ r, stepFile cfg acc { f with inferResp := r } =
      { acc with state := dictUpsert acc.state f.name f.hash }) ∧
    (∀ g : FileInput, g.name = f.name → g.hash = f.hash →
      ∀ cfg2 acc2, cfg2.resume = true → lookupD acc2.state g.name = g.hash →
        stepFile cfg2 acc2 g = acc2) := by
  have hcond : (cfg.resume && (lookupD acc.state f.name == f.hash)) = false := by
    rcases Bool.eq_false_or_eq_true (cfg.resume &&
      (lookupD acc.state f.name == f.hash)) with hc | hc
    · simp only [Bool.and_eq_true, beq_iff_eq] at hc
      exact absurd ⟨hc.1, hc.2⟩ hns
    · exact hc
  have hwc2 : word_count (normalize_whitespace
      (if f.pandocText = "" then f.fallbackText else f.pandocText)) = 0 := by
    simpa using hwc
  refine ⟨?_, ?_, ?_⟩
  · simp [stepFile, hcond, hwc2]
  · intro r
    simp [stepFile, hcond, hwc2]
  · intro g hn hh cfg2 acc2 hr2 hlook
    exact stepFile_skip cfg2 acc2 g hr2 hlook

/-- A document whose extraction is non-empty but contains no word
characters (punctuation only), so it still counts zero words, for the
C9 witness. -/
def c9file : FileInput :=
  { name := "empty.docx", hash := "h9", pandocText := "... !!! ,,,", fallbackText := "",
    inferResp := Except.ok [], procTime := "T9" }

/-- Witness for C9: the concrete zero-word document only advances the
fingerprint map. -/
theorem C9_zero_word_witness :
    stepFile cfg0 acc0 c9file =
      { acc0 with state := dictUpsert acc0.state c9file.name c9file.hash } :=
  (C9_zero_word cfg0 acc0 c9file (by decide) (by decide)).1

/-! ## C8: precedence of deterministic date resolution -/

/-- C8: for every processed document the date is resolved in a fixed
order — a valid date parsed from the filename wins over one found in
the text, both win over the inference service's date, and only when all
three yield nothing is the date empty with the empty provenance marker
(`date_source` = `""`); a filename or text hit marks provenance
`"filename/text"`, an inference-only date marks `"ai"`. -/
theorem C8_date_precedence (name text ai : String) :
    (∀ d, parse_date_from_filename name = some d →
      final_date name text ai = d ∧ date_source name text ai = "filename/text") ∧
    (parse_date_from_filename name = Option.none →
      ∀ d, parse_date_from_text text = some d →
        final_date name text ai = d ∧ date_source name text ai = "filename/text") ∧
    (parse_date_from_filename name = Option.none →
      parse_date_from_text text = Option.none → ai ≠ "" →
        final_date name text ai = ai ∧ date_source name text ai = "ai") ∧
    (parse_date_from_filename name = Option.none →
      parse_date_from_text text = Option.none → ai = "" →
        final_date name text ai = "" ∧ date_source name text ai = "") := by
  refine ⟨?_, ?_, ?_, ?_⟩
  · intro d hpf
    have hne := parse_filename_ne_empty hpf
    constructor
    · simp [final_date, date_guess, hpf, strOr, hne]
    · simp [date_source, date_guess, hpf, strOr, hne]
  · intro hpf d hpt
    have hne := parse_text_ne_empty hpt
    constructor
    · simp [final_date, date_guess, hpf, hpt, strOr, hne]
    · simp [date_source, date_guess, hpf, hpt, strOr, hne]
  · intro hpf hpt hai
    constructor
    · simp [final_date, date_guess, hpf, hpt, strOr, hai]
    · simp [date_source, date_guess, hpf, hpt, strOr, hai]
  · intro hpf hpt hai
    constructor
    · simp [final_date, date_guess, hpf, hpt, strOr, hai]
    · simp [date_source, date_guess, hpf, hpt, strOr, hai]

/-- Witness for C8 at concrete inputs: the filename date
`2024-03-05` beats both the text date `Sept. 5, 2021` and the service
date `1999-12-31`. -/
theorem C8_date_precedence_witness :
    final_date "x 2024-03-05.docx" "Sept. 5, 2021" "1999-12-31" = "2024-03-05" ∧
    date_source "x 2024-03-05.docx" "Sept. 5, 2021" "1999-12-31" = "filename/text" :=
  (C8_date_precedence "x 2024-03-05.docx" "Sept. 5, 2021" "1999-12-31").1
    "2024-03-05" (by decide)

/-! ## C4: defensive handling of the inference response's shape -/

/-- C4 counterexample: a truthy non-string title (here the integer 42)
does not fall back to the filename stem — `.strip()` raises, the whole
document fails, and the step records an error instead of an Article,
contradicting the claim that shape mismatches never fail the document. -/
theorem C4_counterexample :
    stepFile { resume := false, prune := false }
      { articles := [], state := [], errors := [], processed := 0, updated := 0,
        missingRows := [] }
      { name := "r.docx", hash := "h", pandocText := "words here", fallbackText := "",
        inferResp := Except.ok [("title", PyVal.int 42)], procTime := "T" } =
      { articles := [], state := [("r.docx", "h")],
        errors := [{ file := "r.docx", error := "AttributeError: strip" }],
        processed := 0, updated := 0, missingRows := [] } := by
  decide

/-- The string content of a title/date/summary field after the
`or ""` fallback: the string itself for string values, `""` otherwise. -/
def fieldStr : PyVal → String
  | .str s => s
  | _ => ""

/-- A response field that the `(… or "").strip()` idiom handles without
raising: either a string, or a falsy value. -/
def strOrFalsy (v : PyVal) : Prop := (∃ s, v = PyVal.str s) ∨ pyTruthy v = false

theorem stripOrEmpty_ok {v : PyVal} (h : strOrFalsy v) :
    stripOrEmpty v = Except.ok (pyStrip (fieldStr v)) := by
  rcases h with ⟨s, rfl⟩ | h
  · by_cases hs : pyTruthy (PyVal.str s) = true
    · simp [stripOrEmpty, hs, fieldStr]
    · have : s = "" := by simpa [pyTruthy] using hs
      subst this
      rfl
  · cases v <;> simp_all [stripOrEmpty, pyTruthy, fieldStr]

theorem stripOrEmpty_raises {v : PyVal} (ht : pyTruthy v = true)
    (hn : ∀ s, v ≠ PyVal.str s) :
    stripOrEmpty v = Except.error "AttributeError: strip" := by
  cases v <;> simp_all [stripOrEmpty, pyTruthy]

/-- C4 (amended): a missing or falsy title falls back to the filename
stem and missing/falsy date/summary default to the empty string, all
after trimming; topics default to the empty list when the field is not
a list and each topic string is trimmed and kept only when non-empty
after trimming; but a truthy non-string title does raise, failing the
document with an error record instead of applying a fallback. -/
theorem C4_response_handling (stemS : String) (meta : List (String × PyVal))
    (ht : strOrFalsy (pyGet meta "title"))
    (hd : strOrFalsy (pyGet meta "date"))
    (hs : strOrFalsy (pyGet meta "summary")) :
    runMeta stemS meta = Except.ok
      { title := strOr (pyStrip (fieldStr (pyGet meta "title"))) stemS,
        dateAi := pyStrip (fieldStr (pyGet meta "date")),
        summary := pyStrip (fieldStr (pyGet meta "summary")),
        topics := cleanTopics (extractTopics (pyGet meta "topics")) } ∧
    (∀ v : PyVal, (∀ xs, v ≠ PyVal.list xs) → extractTopics v = []) ∧
    (∀ xs : List PyVal, cleanTopics xs =
      ((xs.filterMap (fun t => match t with
          | PyVal.str s => some s
          | _ => Option.none)).map pyStrip).filter (fun s => !(s == ""))) ∧
    (∀ meta2 : List (String × PyVal), pyTruthy (pyGet meta2 "title") = true →
      (∀ s, pyGet meta2 "title" ≠ PyVal.str s) →
      runMeta stemS meta2 = Except.error "AttributeError: strip") := by
  refine ⟨?_, ?_, ?_, ?_⟩
  · simp only [runMeta, getStrField, stripOrEmpty_ok ht, stripOrEmpty_ok hd,
      stripOrEmpty_ok hs]
    rfl
  · intro v hv
    by_cases hp : pyTruthy v = true
    · unfold extractTopics
      rw [if_pos hp]
      cases v with
      | none => rfl
      | bool b => rfl
      | int n => rfl
      | str s => rfl
      | list xs => exact absurd rfl (hv xs)
      | dict xs => rfl
    · unfold extractTopics
      rw [if_neg hp]
  · intro xs
    induction xs with
    | nil => rfl
    | cons x rest ih =>
      cases x with
      | str s =>
        by_cases hx : pyStrip s = "" <;>
          simp [cleanTopics, List.filterMap_cons, List.filter_cons, hx] at ih ⊢ <;>
          exact ih
      | none => simpa [cleanTopics, List.filterMap_cons] using ih
      | bool b => simpa [cleanTopics, List.filterMap_cons] using ih
      | int n => simpa [cleanTopics, List.filterMap_cons] using ih
      | list ys => simpa [cleanTopics, List.filterMap_cons] using ih
      | dict ys => simpa [cleanTopics, List.filterMap_cons] using ih
  · intro meta2 ht2 hn2
    simp only [runMeta, getStrField, stripOrEmpty_raises ht2 hn2]
    rfl

/-- A concrete response with missing title/date/summary and a non-list
topics field, for the C4 witness. -/
def c4meta : List (String × PyVal) := [("topics", PyVal.str "x")]

/-- Witness for C4 (amended) on a concrete degenerate response. -/
theorem C4_response_handling_witness :
    runMeta "report" c4meta = Except.ok
      { title := strOr (pyStrip (fieldStr (pyGet c4meta "title"))) "report",
        dateAi := pyStrip (fieldStr (pyGet c4meta "date")),
        summary := pyStrip (fieldStr (pyGet c4meta "summary")),
        topics := cleanTopics (extractTopics (pyGet c4meta "topics")) } ∧
    (∀ v : PyVal, (∀ xs, v ≠ PyVal.list xs) → extractTopics v = []) ∧
    (∀ xs : List PyVal, cleanTopics xs =
      ((xs.filterMap (fun t => match t with
          | PyVal.str s => some s
          | _ => Option.none)).map pyStrip).filter (fun s => !(s == ""))) ∧
    (∀ meta2 : List (String × PyVal), pyTruthy (pyGet meta2 "title") = true →
      (∀ s, pyGet meta2 "title" ≠ PyVal.str s) →
      runMeta "report" meta2 = Except.error "AttributeError: strip") :=
  C4_response_handling "report" c4meta (Or.inr rfl) (Or.inr rfl) (Or.inr rfl)

/-! ## Lemmas: the sort comparison and the stable sort -/

theorem char_eq_of_toNat_eq {a b : Char} (h : a.toNat = b.toNat) : a = b :=
  Char.ext (UInt32.toNat.inj h)

theorem chsLt_irrefl : ∀ l : List Char, chsLt l l = false
  | [] => rfl
  | a :: as => by simp [chsLt, chsLt_irrefl as]

theorem chsLt_trans : ∀ {a b c : List Char},
    chsLt a b = true → chsLt b c = true → chsLt a c = true
  | [], [], _, h1, _ => by simp [chsLt] at h1
  | [], _ :: _, [], _, h2 => by simp [chsLt] at h2
  | [], _ :: _, _ :: _, _, _ => rfl
  | _ :: _, [], _, h1, _ => by simp [chsLt] at h1
  | _ :: _, _ :: _, [], _, h2 => by simp [chsLt] at h2
  | x :: xs, y :: ys, z :: zs, h1, h2 => by
    rw [chsLt] at h1 h2 ⊢
    by_cases hxy : x.toNat < y.toNat
    · by_cases hyz : y.toNat < z.toNat
      · rw [if_pos (by omega : x.toNat < z.toNat)]
      · rw [if_neg hyz] at h2
        by_cases hzy : z.toNat < y.toNat
        · rw [if_pos hzy] at h2
          exact (Bool.false_ne_true h2).elim
        · rw [if_pos (by omega : x.toNat < z.toNat)]
    · rw [if_neg hxy] at h1
      by_cases hyx : y.toNat < x.toNat
      · rw [if_pos hyx] at h1
        exact (Bool.false_ne_true h1).elim
      · rw [if_neg hyx] at h1
        by_cases hyz : y.toNat < z.toNat
        · rw [if_pos (by omega : x.toNat < z.toNat)]
        · rw [if_neg hyz] at h2
          by_cases hzy : z.toNat < y.toNat
          · rw [if_pos hzy] at h2
            exact (Bool.false_ne_true h2).elim
          · rw [if_neg hzy] at h2
            rw [if_neg (by omega : ¬ x.toNat < z.toNat),
              if_neg (by omega : ¬ z.toNat < x.toNat)]
            exact chsLt_trans h1 h2

theorem chsLt_asymm {a b : List Char} (h1 : chsLt a b = true) (h2 : chsLt b a = true) :
    False := by
  have := chsLt_trans h1 h2
  rw [chsLt_irrefl a] at this
  exact Bool.false_ne_true this

theorem chsLt_connex : ∀ {a b : List Char}, a ≠ b → (chsLt a b || chsLt b a) = true
  | [], [], h => absurd rfl h
  | [], _ :: _, _ => rfl
  | _ :: _, [], _ => by simp [chsLt]
  | x :: xs, y :: ys, h => by
    simp only [chsLt]
    by_cases hxy : x.toNat < y.toNat
    · simp [hxy]
    · by_cases hyx : y.toNat < x.toNat
      · simp [hxy, hyx]
      · have hx : x = y := char_eq_of_toNat_eq (by omega)
        subst hx
        have htl : xs ≠ ys := fun he => h (he ▸ rfl)
        simp [hxy, hyx]
        simpa using chsLt_connex htl

theorem str_eq_of_data_eq {a b : String} (h : a.data = b.data) : a = b := by
  cases a
  cases b
  exact congrArg String.mk (by simpa using h)

theorem strLeB_refl (s : String) : strLeB s s = true := by
  simp [strLeB, chsLt_irrefl]

theorem strLeB_trans {a b c : String}
    (h1 : strLeB a b = true) (h2 : strLeB b c = true) : strLeB a c = true := by
  simp only [strLeB, Bool.not_eq_true'] at h1 h2 ⊢
  by_cases hca : chsLt c.data a.data = true
  · by_cases hbc : b.data = c.data
    · rw [hbc] at h1
      exact h1
    · rcases Bool.or_eq_true_iff.mp (chsLt_connex hbc) with hlt | hlt
      · exact absurd (chsLt_trans hlt hca) (by simp [h1])
      · exact absurd hlt (by simp [h2])
  · exact Bool.eq_false_iff.mpr hca

theorem strLtB_ne {a b : String} (h : strLtB a b = true) : a ≠ b := by
  intro he
  subst he
  rw [strLtB, chsLt_irrefl] at h
  exact Bool.false_ne_true h

theorem pairLe_refl (p : String × String) : pairLe p p = true := by
  simp [pairLe, strLeB_refl]

theorem pairLe_trans {p q r : String × String}
    (h1 : pairLe p q = true) (h2 : pairLe q r = true) : pairLe p r = true := by
  by_cases hpq : p.1 = q.1
  · by_cases hqr : q.1 = r.1
    · have hpr : p.1 = r.1 := hpq.trans hqr
      rw [pairLe, if_pos hpq] at h1
      rw [pairLe, if_pos hqr] at h2
      rw [pairLe, if_pos hpr]
      exact strLeB_trans h1 h2
    · rw [pairLe, if_neg hqr] at h2
      have hlt : strLtB p.1 r.1 = true := hpq ▸ h2
      rw [pairLe, if_neg (strLtB_ne hlt)]
      exact hlt
  · rw [pairLe, if_neg hpq] at h1
    by_cases hqr : q.1 = r.1
    · have hlt : strLtB p.1 r.1 = true := hqr ▸ h1
      rw [pairLe, if_neg (strLtB_ne hlt)]
      exact hlt
    · rw [pairLe, if_neg hqr] at h2
      have hlt : strLtB p.1 r.1 = true := chsLt_trans h1 h2
      rw [pairLe, if_neg (strLtB_ne hlt)]
      exact hlt

theorem pairLe_total (p q : String × String) : (pairLe p q || pairLe q p) = true := by
  by_cases hpq : p.1 = q.1
  · rw [pairLe, if_pos hpq, pairLe, if_pos hpq.symm]
    simp only [strLeB, Bool.or_eq_true, Bool.not_eq_true']
    by_cases h : chsLt q.2.data p.2.data = true
    · refine Or.inr ?_
      by_cases h2 : chsLt p.2.data q.2.data = true
      · exact (chsLt_asymm h2 h).elim
      · exact Bool.eq_false_iff.mpr h2
    · exact Or.inl (Bool.eq_false_iff.mpr h)
  · rw [pairLe, if_neg hpq, pairLe, if_neg (Ne.symm hpq)]
    have hdata : p.1.data ≠ q.1.data := fun he => hpq (str_eq_of_data_eq he)
    simpa [strLtB] using chsLt_connex hdata

theorem artLe_trans {a b c : Article}
    (h1 : artLe a b = true) (h2 : artLe b c = true) : artLe a c = true :=
  pairLe_trans h2 h1

theorem artLe_of_not_artLe {a b : Article} (h : artLe a b = false) : artLe b a = true := by
  have := pairLe_total (akey b) (akey a)
  rw [artLe] at h ⊢
  rcases Bool.or_eq_true_iff.mp this with h1 | h1
  · exact absurd h1 (by simp [h])
  · exact h1

theorem akey_ne_of_not_artLe {a b : Article} (h : artLe a b = false) : akey b ≠ akey a := by
  intro hk
  have : artLe a b = true := by
    rw [artLe, hk]
    exact pairLe_refl _
  simp [this] at h

theorem mem_insertDesc {x a : Article} {l : List Article} :
    a ∈ insertDesc x l ↔ a = x ∨ a ∈ l := by
  induction l with
  | nil => simp [insertDesc]
  | cons y ys ih =>
    by_cases hxy : artLe y x
    · rw [insertDesc, if_pos hxy]
      simp only [List.mem_cons, ih]
      try tauto
    · rw [insertDesc, if_neg hxy]
      simp only [List.mem_cons]
      try tauto

theorem insertDesc_sorted {x : Article} {l : List Article}
    (hs : l.Pairwise (fun a b => artLe a b = true)) :
    (insertDesc x l).Pairwise (fun a b => artLe a b = true) := by
  induction l with
  | nil => simp [insertDesc]
  | cons y ys ih =>
    rcases List.pairwise_cons.mp hs with ⟨hy, hys⟩
    by_cases hxy : artLe y x
    · rw [insertDesc, if_pos hxy]
      refine List.pairwise_cons.mpr ⟨?_, ih hys⟩
      intro z hz
      rcases mem_insertDesc.mp hz with rfl | hz2
      · exact hxy
      · exact hy z hz2
    · rw [insertDesc, if_neg hxy]
      have hxy2 : artLe x y = true :=
        artLe_of_not_artLe (Bool.not_eq_true _ ▸ hxy)
      refine List.pairwise_cons.mpr ⟨?_, hs⟩
      intro z hz
      rcases List.mem_cons.mp hz with rfl | hz2
      · exact hxy2
      · exact artLe_trans hxy2 (hy z hz2)

theorem sortAux_sorted : ∀ (l acc : List Article),
    acc.Pairwise (fun a b => artLe a b = true) →
    (l.foldl (fun a b => insertDesc b a) acc).Pairwise (fun a b => artLe a b = true) := by
  intro l
  induction l with
  | nil => intro acc h; simpa using h
  | cons x xs ih =>
    intro acc h
    exact ih (insertDesc x acc) (insertDesc_sorted h)

theorem sortArticles_sorted (l : List Article) :
    (sortArticles l).Pairwise (fun a b => artLe a b = true) :=
  sortAux_sorted l [] (List.Pairwise.nil)

theorem insertDesc_perm (x : Article) (l : List Article) :
    Perm (insertDesc x l) (x :: l) := by
  induction l with
  | nil => exact List.Perm.refl _
  | cons y ys ih =>
    by_cases hxy : artLe y x
    · rw [insertDesc, if_pos hxy]
      exact (ih.cons y).trans (List.Perm.swap x y ys)
    · rw [insertDesc, if_neg hxy]

theorem sortAux_perm : ∀ (l acc : List Article),
    Perm (l.foldl (fun a b => insertDesc b a) acc) (acc ++ l) := by
  intro l
  induction l with
  | nil => intro acc; simp
  | cons x xs ih =>
    intro acc
    rw [List.foldl_cons]
    refine (ih (insertDesc x acc)).trans ?_
    refine ((insertDesc_perm x acc).append_right xs).trans ?_
    exact List.Perm.symm List.perm_middle

theorem sortArticles_perm (l : List Article) : Perm (sortArticles l) l :=
  sortAux_perm l []

theorem insertDesc_filter {x : Article} {l : List Article} {k : String × String}
    (hs : l.Pairwise (fun a b => artLe a b = true)) :
    (insertDesc x l).filter (fun a => decide (akey a = k)) =
      if akey x = k then l.filter (fun a => decide (akey a = k)) ++ [x]
      else l.filter (fun a => decide (akey a = k)) := by
  induction l with
  | nil =>
    by_cases hk : akey x = k <;> simp [insertDesc, hk]
  | cons y ys ih =>
    rcases List.pairwise_cons.mp hs with ⟨hy, hys⟩
    by_cases hxy : artLe y x
    · rw [insertDesc, if_pos hxy]
      by_cases hk : akey x = k
      · rw [if_pos hk]
        by_cases hyk : akey y = k <;>
          simp [List.filter_cons, hyk, ih hys, hk]
      · rw [if_neg hk]
        by_cases hyk : akey y = k <;>
          simp [List.filter_cons, hyk, ih hys, hk]
    · rw [insertDesc, if_neg hxy]
      have hxyf : artLe y x = false := Bool.not_eq_true _ ▸ hxy
      by_cases hk : akey x = k
      · rw [if_pos hk]
        have hempty : (y :: ys).filter (fun a => decide (akey a = k)) = [] := by
          rw [List.filter_eq_nil_iff]
          intro z hz
          simp only [decide_eq_true_eq]
          intro hzk
          have hzx : akey z = akey x := hzk.trans hk.symm
          have hcontra : artLe y x = true := by
            rcases List.mem_cons.mp hz with rfl | hz2
            · rw [artLe, ← hzx]
              exact pairLe_refl _
            · rw [artLe, ← hzx]
              exact hy z hz2
          exact hxy hcontra
        rw [hempty]
        simp [List.filter_cons, hk, hempty]
      · rw [if_neg hk]
        simp [List.filter_cons, hk]

theorem sortAux_filter : ∀ (l acc : List Article) (k : String × String),
    acc.Pairwise (fun a b => artLe a b = true) →
    (l.foldl (fun a b => insertDesc b a) acc).filter (fun a => decide (akey a = k)) =
      acc.filter (fun a => decide (akey a = k)) ++ l.filter (fun a => decide (akey a = k)) := by
  intro l
  induction l with
  | nil => intro acc k h; simp
  | cons x xs ih =>
    intro acc k h
    have step := ih (insertDesc x acc) k (insertDesc_sorted h)
    rw [List.foldl_cons, step, insertDesc_filter h]
    by_cases hk : akey x = k <;> simp [List.filter_cons, hk]

/-- Stability of the sort: within each key class the output order is the
input order. -/
theorem sortArticles_filter (l : List Article) (k : String × String) :
    (sortArticles l).filter (fun a => decide (akey a = k)) =
      l.filter (fun a => decide (akey a = k)) := by
  simpa using sortAux_filter l [] k List.Pairwise.nil

theorem insertDesc_append {x : Article} {l : List Article}
    (h : ∀ y ∈ l, artLe y x = true) : insertDesc x l = l ++ [x] := by
  induction l with
  | nil => rfl
  | cons y ys ih =>
    rw [insertDesc, if_pos (h y (List.mem_cons_self y ys)),
      ih (fun z hz => h z (List.mem_cons_of_mem y hz))]
    rfl

theorem sortAux_of_sorted : ∀ (l acc : List Article),
    (acc ++ l).Pairwise (fun a b => artLe a b = true) →
    l.foldl (fun a b => insertDesc b a) acc = acc ++ l := by
  intro l
  induction l with
  | nil => intro acc h; simp
  | cons x xs ih =>
    intro acc h
    have hx : ∀ y ∈ acc, artLe y x = true := by
      intro y hy
      exact (List.pairwise_append.mp h).2.2 y hy x (List.mem_cons_self x xs)
    have hrest := ih (acc ++ [x]) (by simpa using h)
    rw [List.foldl_cons, insertDesc_append hx, hrest]
    simp

/-- Sorting an already-sorted collection is the identity. -/
theorem sortArticles_of_sorted {l : List Article}
    (h : l.Pairwise (fun a b => artLe a b = true)) : sortArticles l = l := by
  simpa using sortAux_of_sorted l [] (by simpa using h)

/-- A minimal Article with the given date and title, for the C7 example. -/
def c7art (d t : String) : Article :=
  { sourceFile := t, title := t, date := d, dateISO := d, dateSource := "", summary := "",
    topics := [], wordCount := 1, text := "", updatedAt := "" }

/-- C7: every collection a run writes is totally ordered by date
descending then title descending (each element's key is at least the
next's, empty dates sorting last under plain string comparison); the
sort is a permutation and is stable otherwise (each key class keeps its
input order); and on the claim's example — (date "2024-03-01", title
"B"), (date "2024-03-01", title "A"), (date "", title "Z") — the output
order is B, A, Z, from either input order. -/
theorem C7_sort_contract :
    (∀ cfg st0 prior files t,
      ((run cfg st0 prior files t).payload.articles).Pairwise (fun a b => artLe a b = true)) ∧
    (∀ l : List Article, Perm (sortArticles l) l) ∧
    (∀ (l : List Article) (k : String × String),
      (sortArticles l).filter (fun a => decide (akey a = k)) =
        l.filter (fun a => decide (akey a = k))) ∧
    sortArticles [c7art "" "Z", c7art "2024-03-01" "A", c7art "2024-03-01" "B"] =
      [c7art "2024-03-01" "B", c7art "2024-03-01" "A", c7art "" "Z"] ∧
    sortArticles [c7art "2024-03-01" "B", c7art "2024-03-01" "A", c7art "" "Z"] =
      [c7art "2024-03-01" "B", c7art "2024-03-01" "A", c7art "" "Z"] := by
  refine ⟨?_, sortArticles_perm, sortArticles_filter, by decide, by decide⟩
  intro cfg st0 prior files t
  rw [run_articles_eq]
  exact sortArticles_sorted _

/-! ## Lemmas: dict upserts and the dedup pass -/

/-- Association lookup used in proofs about Python dicts. -/
def lookupA {β : Type} (m : List (String × β)) (k : String) : Option β :=
  (m.find? (fun kv => kv.1 == k)).map (fun kv => kv.2)

theorem mapReplace_lookup_same {β : Type} {k : String} {v : β} :
    ∀ m : List (String × β), m.any (fun kv => kv.1 == k) = true →
    lookupA (m.map (fun kv => if kv.1 == k then (k, v) else kv)) k = some v := by
  intro m
  induction m with
  | nil => intro h; simp at h
  | cons kv rest ih =>
    intro h
    rw [List.map_cons]
    by_cases hk : (kv.1 == k) = true
    · rw [if_pos hk]
      simp only [lookupA]
      rw [List.find?_cons_of_pos _ (by simp)]
      rfl
    · rw [if_neg hk]
      have hrest : rest.any (fun kv => kv.1 == k) = true := by
        simpa [List.any_cons, hk] using h
      simp only [lookupA]
      rw [List.find?_cons_of_neg _ (by simpa using hk)]
      exact ih hrest

theorem mapReplace_lookup_other {β : Type} {k k' : String} {v : β} (hne : k' ≠ k) :
    ∀ m : List (String × β),
    lookupA (m.map (fun kv => if kv.1 == k then (k, v) else kv)) k' = lookupA m k' := by
  intro m
  induction m with
  | nil => rfl
  | cons kv rest ih =>
    rw [List.map_cons]
    by_cases hk : (kv.1 == k) = true
    · have hkk : kv.1 = k := by simpa using hk
      rw [if_pos hk]
      simp only [lookupA]
      rw [List.find?_cons_of_neg _ (by simp; exact fun he => hne he.symm)]
      rw [List.find?_cons_of_neg _ (by simp [hkk]; exact fun he => hne he.symm)]
      exact ih
    · rw [if_neg hk]
      by_cases hk' : (kv.1 == k') = true
      · simp only [lookupA]
        rw [List.find?_cons_of_pos _ (by simpa using hk'),
          List.find?_cons_of_pos _ (by simpa using hk')]
      · simp only [lookupA]
        rw [List.find?_cons_of_neg _ (by simpa using hk'),
          List.find?_cons_of_neg _ (by simpa using hk')]
        exact ih

theorem lookupA_dictUpsert_same {β : Type} (m : List (String × β)) (k : String) (v : β) :
    lookupA (dictUpsert m k v) k = some v := by
  rw [dictUpsert]
  by_cases hmem : m.any (fun kv => kv.1 == k) = true
  · rw [if_pos hmem]
    exact mapReplace_lookup_same m hmem
  · rw [if_neg hmem]
    have hnone : m.find? (fun kv => kv.1 == k) = Option.none := by
      rw [List.find?_eq_none]
      intro kv hkv hp
      exact hmem (List.any_eq_true.mpr ⟨kv, hkv, hp⟩)
    simp only [lookupA, List.find?_append, hnone, Option.none_or]
    rw [List.find?_cons_of_pos _ (by simp)]
    rfl

theorem lookupA_dictUpsert_other {β : Type} (m : List (String × β)) (k k' : String) (v : β)
    (hne : k' ≠ k) : lookupA (dictUpsert m k v) k' = lookupA m k' := by
  rw [dictUpsert]
  by_cases hmem : m.any (fun kv => kv.1 == k) = true
  · rw [if_pos hmem]
    exact mapReplace_lookup_other hne m
  · rw [if_neg hmem]
    simp only [lookupA, List.find?_append]
    have hsingle : ([((k, v))].find? (fun kv => kv.1 == k')) = Option.none := by
      rw [List.find?_cons_of_neg _ (by simp; exact fun he => hne he.symm)]
      rfl
    rw [hsingle, Option.or_none]

theorem mem_dictUpsert {β : Type} {m : List (String × β)} {k : String} {v : β}
    {kv' : String × β} (h : kv' ∈ dictUpsert m k v) : kv' = (k, v) ∨ kv' ∈ m := by
  rw [dictUpsert] at h
  by_cases hmem : m.any (fun kv => kv.1 == k) = true
  · rw [if_pos hmem] at h
    rcases List.mem_map.mp h with ⟨kv, hkv, heq⟩
    by_cases hk : (kv.1 == k) = true
    · rw [if_pos hk] at heq
      exact Or.inl heq.symm
    · rw [if_neg hk] at heq
      exact Or.inr (heq ▸ hkv)
  · rw [if_neg hmem] at h
    rcases List.mem_append.mp h with h2 | h2
    · exact Or.inr h2
    · exact Or.inl (by simpa using h2)

theorem dictUpsert_keys_nodup {β : Type} {m : List (String × β)} {k : String} {v : β}
    (h : (m.map Prod.fst).Nodup) : ((dictUpsert m k v).map Prod.fst).Nodup := by
  rw [dictUpsert]
  by_cases hmem : m.any (fun kv => kv.1 == k) = true
  · rw [if_pos hmem]
    have hkeys : (m.map (fun kv => if kv.1 == k then (k, v) else kv)).map Prod.fst =
        m.map Prod.fst := by
      rw [List.map_map]
      apply List.map_congr_left
      intro kv _
      by_cases hk : kv.1 = k
      · simp [hk]
      · simp [hk]
    rw [hkeys]
    exact h
  · rw [if_neg hmem]
    rw [List.map_append]
    rw [List.nodup_append]
    refine ⟨h, by simp, ?_⟩
    intro x hx
    simp only [List.map_cons, List.map_nil, List.mem_singleton]
    intro hxk
    subst hxk
    rcases List.mem_map.mp hx with ⟨kv, hkv, hfst⟩
    exact hmem (List.any_eq_true.mpr ⟨kv, hkv, by simp [hfst]⟩)

theorem dedup_fold_inv : ∀ (arts : List Article) (m : List (String × Article)),
    (∀ kv ∈ m, kv.2.sourceFile = kv.1 ∧ kv.1 ≠ "") → (m.map Prod.fst).Nodup →
    (∀ kv ∈ arts.foldl
        (fun m a => if a.sourceFile == "" then m else dictUpsert m a.sourceFile a) m,
      kv.2.sourceFile = kv.1 ∧ kv.1 ≠ "") ∧
    ((arts.foldl
        (fun m a => if a.sourceFile == "" then m else dictUpsert m a.sourceFile a) m).map
          Prod.fst).Nodup := by
  intro arts
  induction arts with
  | nil => intro m h1 h2; exact ⟨h1, h2⟩
  | cons a rest ih =>
    intro m h1 h2
    rw [List.foldl_cons]
    by_cases hsf : (a.sourceFile == "") = true
    · rw [if_pos hsf]
      exact ih m h1 h2
    · rw [if_neg hsf]
      refine ih (dictUpsert m a.sourceFile a) ?_ (dictUpsert_keys_nodup h2)
      intro kv hkv
      rcases mem_dictUpsert hkv with rfl | hkv2
      · exact ⟨rfl, by simpa using hsf⟩
      · exact h1 kv hkv2

theorem dedup_keys_nodup (arts : List Article) :
    ((dedupArticles arts).map (fun a => a.sourceFile)).Nodup := by
  obtain ⟨hinv, hnodup⟩ := dedup_fold_inv arts [] (by simp) (by simp)
  rw [dedupArticles, List.map_map]
  have : (arts.foldl
      (fun m a => if a.sourceFile == "" then m else dictUpsert m a.sourceFile a) []).map
        ((fun a => a.sourceFile) ∘ (fun kv => kv.2)) =
      (arts.foldl
      (fun m a => if a.sourceFile == "" then m else dictUpsert m a.sourceFile a) []).map
        Prod.fst := by
    apply List.map_congr_left
    intro kv hkv
    exact (hinv kv hkv).1
  rw [this]
  exact hnodup

theorem mem_dedup_fold : ∀ (arts : List Article) (m : List (String × Article))
    (kv : String × Article),
    kv ∈ arts.foldl
      (fun m a => if a.sourceFile == "" then m else dictUpsert m a.sourceFile a) m →
    kv ∈ m ∨ (kv.2 ∈ arts ∧ kv.2.sourceFile ≠ "") := by
  intro arts
  induction arts with
  | nil => intro m kv h; exact Or.inl h
  | cons a rest ih =>
    intro m kv h
    rw [List.foldl_cons] at h
    by_cases hsf : (a.sourceFile == "") = true
    · rw [if_pos hsf] at h
      rcases ih m kv h with h2 | h2
      · exact Or.inl h2
      · exact Or.inr ⟨List.mem_cons_of_mem a h2.1, h2.2⟩
    · rw [if_neg hsf] at h
      rcases ih (dictUpsert m a.sourceFile a) kv h with h2 | h2
      · rcases mem_dictUpsert h2 with rfl | h3
        · exact Or.inr ⟨List.mem_cons_self a rest, by simpa using hsf⟩
        · exact Or.inl h3
      · exact Or.inr ⟨List.mem_cons_of_mem a h2.1, h2.2⟩

theorem mem_dedup {a : Article} {arts : List Article} (h : a ∈ dedupArticles arts) :
    a ∈ arts ∧ a.sourceFile ≠ "" := by
  rw [dedupArticles] at h
  rcases List.mem_map.mp h with ⟨kv, hkv, rfl⟩
  rcases mem_dedup_fold arts [] kv hkv with h2 | h2
  · simp at h2
  · exact h2

theorem dedup_fold_lookup : ∀ (arts : List Article) (m : List (String × Article))
    (sf : String), sf ≠ "" →
    lookupA (arts.foldl
      (fun m a => if a.sourceFile == "" then m else dictUpsert m a.sourceFile a) m) sf =
      (match arts.reverse.find? (fun a => a.sourceFile == sf) with
        | some a => some a
        | Option.none => lookupA m sf) := by
  intro arts
  induction arts with
  | nil => intro m sf h; rfl
  | cons a rest ih =>
    intro m sf h
    rw [List.foldl_cons, List.reverse_cons, List.find?_append]
    rw [ih _ sf h]
    cases hf : rest.reverse.find? (fun a => a.sourceFile == sf) with
    | some b => rfl
    | none =>
      simp only [Option.none_or]
      by_cases hsf : (a.sourceFile == "") = true
      · have ha0 : a.sourceFile = "" := by simpa using hsf
        have hne : (a.sourceFile == sf) = false := by
          simp [ha0]
          exact fun he => h he.symm
        rw [if_pos hsf, List.find?_cons, hne]
        rfl
      · rw [if_neg hsf]
        by_cases hk : (a.sourceFile == sf) = true
        · have hesf : a.sourceFile = sf := by simpa using hk
          rw [List.find?_cons, hk, hesf]
          exact lookupA_dictUpsert_same m sf a
        · have hkf : (a.sourceFile == sf) = false := by simpa using hk
          have hne2 : sf ≠ a.sourceFile := by
            intro he
            rw [he] at hkf
            simp at hkf
          rw [List.find?_cons, hkf,
            lookupA_dictUpsert_other m a.sourceFile sf a hne2]
          rfl

theorem dedup_values_find : ∀ (m : List (String × Article)),
    (∀ kv ∈ m, kv.2.sourceFile = kv.1) → ∀ sf : String,
    (m.map (fun kv => kv.2)).find? (fun a => a.sourceFile == sf) = lookupA m sf := by
  intro m
  induction m with
  | nil => intro h sf; rfl
  | cons kv rest ih =>
    intro h sf
    have hkey : kv.2.sourceFile = kv.1 := h kv (List.mem_cons_self kv rest)
    by_cases hp : (kv.2.sourceFile == sf) = true
    · have hq : (kv.1 == sf) = true := by
        rw [← hkey]
        exact hp
      rw [List.map_cons]
      simp only [lookupA]
      rw [List.find?_cons, List.find?_cons, hp, hq]
      rfl
    · have hpf : (kv.2.sourceFile == sf) = false := by simpa using hp
      have hq : (kv.1 == sf) = false := by
        rw [← hkey]
        exact hpf
      rw [List.map_cons]
      simp only [lookupA]
      rw [List.find?_cons, List.find?_cons, hpf, hq]
      exact ih (fun kv2 hkv2 => h kv2 (List.mem_cons_of_mem kv hkv2)) sf

/-- C5: no two Articles in a run's output collection share a
`sourceFile` — the dedup pass keys by `sourceFile`, so the final map of
keys has no duplicate — and the dedup is last-write-wins: for every
non-empty key, the unique surviving Article is the last one in the
in-memory order. -/
theorem runArticles_keys_nodup (cfg : RunConfig) (st0 : List (String × String))
    (prior : Option Payload) (files : List FileInput) (t : String) :
    (((run cfg st0 prior files t).payload.articles).map (fun a => a.sourceFile)).Nodup := by
  rw [run_articles_eq]
  have hperm := (sortArticles_perm (dedupArticles
    ((files.foldl (stepFile cfg) (runStart cfg st0 prior files)).articles))).map
      (fun a => a.sourceFile)
  exact hperm.nodup_iff.mpr (dedup_keys_nodup _)

theorem C5_unique_sourceFile :
    (∀ cfg st0 prior files t,
      (((run cfg st0 prior files t).payload.articles).map (fun a => a.sourceFile)).Nodup) ∧
    (∀ (arts : List Article) (sf : String), sf ≠ "" →
      (dedupArticles arts).find? (fun a => a.sourceFile == sf) =
        arts.reverse.find? (fun a => a.sourceFile == sf)) := by
  constructor
  · intro cfg st0 prior files t
    exact runArticles_keys_nodup cfg st0 prior files t
  · intro arts sf h
    rw [dedupArticles,
      dedup_values_find _ (fun kv hkv => ((dedup_fold_inv arts [] (by simp) (by simp)).1 kv hkv).1),
      dedup_fold_lookup arts [] sf h]
    cases arts.reverse.find? (fun a => a.sourceFile == sf) <;> rfl

/-- Two distinct Articles with the same sourceFile, for the C5 witness. -/
def c5a1 : Article :=
  { sourceFile := "s.docx", title := "first", date := "", dateISO := "", dateSource := "",
    summary := "", topics := [], wordCount := 1, text := "", updatedAt := "t1" }

/-- The later Article with the same sourceFile, for the C5 witness. -/
def c5a2 : Article :=
  { sourceFile := "s.docx", title := "second", date := "", dateISO := "", dateSource := "",
    summary := "", topics := [], wordCount := 2, text := "", updatedAt := "t2" }

/-- Witness for C5: for the duplicate pair the dedup keeps the later
Article. -/
theorem C5_unique_sourceFile_witness :
    (dedupArticles [c5a1, c5a2]).find? (fun a => a.sourceFile == "s.docx") = some c5a2 := by
  have h := C5_unique_sourceFile.2 [c5a1, c5a2] "s.docx" (by decide)
  rw [h]
  decide

/-! ## Lemmas: upsert, the per-document loop, and prune -/

theorem mem_replaceFirst {a b : Article} : ∀ {arts : List Article},
    a ∈ replaceFirst arts b → a ∈ arts ∨ a = b := by
  intro arts
  induction arts with
  | nil => intro h; simp [replaceFirst] at h
  | cons x xs ih =>
    intro h
    rw [replaceFirst] at h
    by_cases hx : (x.sourceFile == b.sourceFile) = true
    · rw [if_pos hx] at h
      rcases List.mem_cons.mp h with rfl | h2
      · exact Or.inr rfl
      · exact Or.inl (List.mem_cons_of_mem x h2)
    · rw [if_neg hx] at h
      rcases List.mem_cons.mp h with rfl | h2
      · exact Or.inl (List.mem_cons_self a xs)
      · rcases ih h2 with h3 | h3
        · exact Or.inl (List.mem_cons_of_mem x h3)
        · exact Or.inr h3

theorem mem_upsertArticle {a b : Article} {arts : List Article}
    (h : a ∈ upsertArticle arts b) : a ∈ arts ∨ a = b := by
  rw [upsertArticle] at h
  by_cases hmem : arts.any (fun x => x.sourceFile == b.sourceFile) = true
  · rw [if_pos hmem] at h
    exact mem_replaceFirst h
  · rw [if_neg hmem] at h
    rcases List.mem_append.mp h with h2 | h2
    · exact Or.inl h2
    · exact Or.inr (by simpa using h2)

theorem stepFile_articles_mem {cfg : RunConfig} {acc : Acc} {f : FileInput} {a : Article}
    (ha : a ∈ (stepFile cfg acc f).articles) :
    a ∈ acc.articles ∨ a.sourceFile = f.name := by
  simp only [stepFile] at ha
  repeat' split at ha
  all_goals
    first
      | exact Or.inl ha
      | (rcases mem_upsertArticle ha with h2 | rfl
         · exact Or.inl h2
         · exact Or.inr rfl)

theorem foldl_articles_mem {cfg : RunConfig} : ∀ (l : List FileInput) (acc : Acc)
    (a : Article), a ∈ (l.foldl (stepFile cfg) acc).articles →
    a ∈ acc.articles ∨ ∃ f ∈ l, a.sourceFile = f.name := by
  intro l
  induction l with
  | nil => intro acc a h; exact Or.inl h
  | cons f rest ih =>
    intro acc a h
    rw [List.foldl_cons] at h
    rcases ih (stepFile cfg acc f) a h with h2 | ⟨g, hg, hga⟩
    · rcases stepFile_articles_mem h2 with h3 | h3
      · exact Or.inl h3
      · exact Or.inr ⟨f, List.mem_cons_self f rest, h3⟩
    · exact Or.inr ⟨g, List.mem_cons_of_mem f hg, hga⟩

theorem mem_pruneArticles {names : List String} {arts : List Article} {a : Article}
    (h : a ∈ pruneArticles names arts) :
    a ∈ arts ∧ (a.sourceFile = "" ∨ a.sourceFile ∈ names) := by
  rw [pruneArticles] at h
  have h2 := List.mem_filter.mp h
  refine ⟨h2.1, ?_⟩
  have hp := h2.2
  by_cases hsf : a.sourceFile = ""
  · exact Or.inl hsf
  · refine Or.inr ?_
    by_cases hc : names.contains a.sourceFile = true
    · exact List.contains_iff_exists_mem_beq.mp hc |>.elim
        (fun n hn => by
          rcases hn with ⟨hmem, hbeq⟩
          have : a.sourceFile = n := by simpa using hbeq
          exact this ▸ hmem)
    · exfalso
      have : (a.sourceFile != "") = true := by simpa using hsf
      simp [this, hc] at hp
      exact hc (by simp [hp])

theorem pruneArticles_keeps {names : List String} {arts : List Article} {a : Article}
    (ha : a ∈ arts) (hn : a.sourceFile ∈ names) : a ∈ pruneArticles names arts := by
  rw [pruneArticles]
  refine List.mem_filter.mpr ⟨ha, ?_⟩
  have hc : names.contains a.sourceFile = true := by
    rw [List.contains_iff_exists_mem_beq]
    exact ⟨a.sourceFile, hn, by simp⟩
  simp [hc]
  exact Or.inr hn

/-- C6: with prune enabled, no Article of the post-run collection has a
`sourceFile` outside the current folder listing; and the prune step
never removes an Article whose `sourceFile` is still present. -/
theorem runArticles_ne_empty (cfg : RunConfig) (st0 : List (String × String))
    (prior : Option Payload) (files : List FileInput) (t : String) :
    ∀ a ∈ (run cfg st0 prior files t).payload.articles, a.sourceFile ≠ "" := by
  intro a ha
  rw [run_articles_eq] at ha
  exact (mem_dedup ((sortArticles_perm _).mem_iff.mp ha)).2

theorem runArticles_subset_names (cfg : RunConfig) (st0 : List (String × String))
    (prior : Option Payload) (files : List FileInput) (t : String)
    (hprune : cfg.prune = true) :
    ∀ a ∈ (run cfg st0 prior files t).payload.articles,
      a.sourceFile ∈ files.map (fun f => f.name) := by
  intro a ha
  have hane := runArticles_ne_empty cfg st0 prior files t a ha
  rw [run_articles_eq] at ha
  have ha2 := (sortArticles_perm _).mem_iff.mp ha
  obtain ⟨ha3, -⟩ := mem_dedup ha2
  rcases foldl_articles_mem files _ a ha3 with h4 | ⟨f, hf, hfa⟩
  · rw [runStart] at h4
    simp only [hprune, if_true] at h4
    rcases (mem_pruneArticles h4).2 with h5 | h5
    · exact absurd h5 hane
    · exact h5
  · exact hfa ▸ List.mem_map.mpr ⟨f, hf, rfl⟩

theorem C6_prune :
    (∀ cfg st0 prior files t, cfg.prune = true →
      ∀ a ∈ (run cfg st0 prior files t).payload.articles,
        a.sourceFile ∈ files.map (fun f => f.name)) ∧
    (∀ (names : List String) (arts : List Article) (a : Article),
      a ∈ arts → a.sourceFile ∈ names → a ∈ pruneArticles names arts) := by
  constructor
  · intro cfg st0 prior files t hprune a ha
    exact runArticles_subset_names cfg st0 prior files t hprune a ha
  · intro names arts a ha hn
    exact pruneArticles_keeps ha hn

/-- A concrete Article backed by a present source file, for the C6
witness. -/
def c6a : Article :=
  { sourceFile := "keep.docx", title := "kept", date := "", dateISO := "", dateSource := "",
    summary := "", topics := [], wordCount := 1, text := "", updatedAt := "t" }

/-- Witness for C6: an Article whose source file is present survives the
prune step. -/
theorem C6_prune_witness : c6a ∈ pruneArticles ["keep.docx"] [c6a] :=
  C6_prune.2 ["keep.docx"] [c6a] c6a (by decide) (by decide)

/-! ## C3: the missing-date report -/

/-- A document that resolves to no date, for the C3 counterexample. -/
def c3file : FileInput :=
  { name := "b.docx", hash := "h3", pandocText := "hello there", fallbackText := "",
    inferResp := Except.ok [("title", PyVal.str "T"), ("date", PyVal.str ""),
      ("summary", PyVal.str "S"), ("topics", PyVal.list [])],
    procTime := "T3" }

/-- The incremental config for the C3 counterexample. -/
def c3cfg : RunConfig := { resume := true, prune := false }

/-- First run over the dateless document. -/
def c3r1 : RunResult := run c3cfg [] Option.none [c3file] "G1"

/-- Second run over the unchanged folder, resuming from the first. -/
def c3r2 : RunResult := run c3cfg c3r1.state (some c3r1.payload) [c3file] "G2"

/-- C3 counterexample: after the second (all-skip) run the collection
still holds exactly one Article with an empty date, yet the report is
regenerated with no rows — the report does not list every Article whose
date is empty at the end of the run, only the documents processed in
that run. -/
theorem C3_counterexample :
    (c3r2.payload.articles.filter (fun a => a.date == "")).length = 1 ∧
    c3r1.missingRows = [("b.docx", "T", 2)] ∧
    c3r2.missingRows = [] ∧
    missingCsv c3r2.missingRows = [["sourceFile", "title", "wordCount"]] := by
  decide

theorem stepFile_nonart (cfg : RunConfig) (f : FileInput) : ∀ (acc1 acc2 : Acc),
    acc1.state = acc2.state → acc1.errors = acc2.errors →
    acc1.processed = acc2.processed → acc1.updated = acc2.updated →
    acc1.missingRows = acc2.missingRows →
    (stepFile cfg acc1 f).state = (stepFile cfg acc2 f).state ∧
    (stepFile cfg acc1 f).errors = (stepFile cfg acc2 f).errors ∧
    (stepFile cfg acc1 f).processed = (stepFile cfg acc2 f).processed ∧
    (stepFile cfg acc1 f).updated = (stepFile cfg acc2 f).updated ∧
    (stepFile cfg acc1 f).missingRows = (stepFile cfg acc2 f).missingRows := by
  intro acc1 acc2 hst her hp hu hr
  cases acc1 with
  | mk arts1 st1 er1 p1 u1 rw1 =>
  cases acc2 with
  | mk arts2 st2 er2 p2 u2 rw2 =>
  dsimp only at hst her hp hu hr
  subst hst
  subst her
  subst hp
  subst hu
  subst hr
  simp only [stepFile]
  by_cases h1 : (cfg.resume && (lookupD st1 f.name == f.hash)) = true
  · simp [h1]
  · by_cases h2 : word_count (normalize_whitespace
        (if f.pandocText = "" then f.fallbackText else f.pandocText)) = 0
    · simp [h1, h2]
    · cases hE : f.inferResp.bind (fun meta => runMeta (pathStem f.name) meta) with
      | ok mo =>
        by_cases h3 : final_date f.name (normalize_whitespace
            (if f.pandocText = "" then f.fallbackText else f.pandocText)) mo.dateAi = "" <;>
          simp [h1, h2, hE, h3]
      | error e => simp [h1, h2, hE]

theorem foldl_nonart (cfg : RunConfig) : ∀ (l : List FileInput) (acc1 acc2 : Acc),
    acc1.state = acc2.state → acc1.errors = acc2.errors →
    acc1.processed = acc2.processed → acc1.updated = acc2.updated →
    acc1.missingRows = acc2.missingRows →
    (l.foldl (stepFile cfg) acc1).state = (l.foldl (stepFile cfg) acc2).state ∧
    (l.foldl (stepFile cfg) acc1).errors = (l.foldl (stepFile cfg) acc2).errors ∧
    (l.foldl (stepFile cfg) acc1).processed = (l.foldl (stepFile cfg) acc2).processed ∧
    (l.foldl (stepFile cfg) acc1).updated = (l.foldl (stepFile cfg) acc2).updated ∧
    (l.foldl (stepFile cfg) acc1).missingRows = (l.foldl (stepFile cfg) acc2).missingRows := by
  intro l
  induction l with
  | nil => intro acc1 acc2 hst her hp hu hr; exact ⟨hst, her, hp, hu, hr⟩
  | cons f rest ih =>
    intro acc1 acc2 hst her hp hu hr
    obtain ⟨h1, h2, h3, h4, h5⟩ := stepFile_nonart cfg f acc1 acc2 hst her hp hu hr
    exact ih (stepFile cfg acc1 f) (stepFile cfg acc2 f) h1 h2 h3 h4 h5

/-- C3 (amended): the report is a header row plus exactly one row
(filename, title, word count) for each document successfully processed
in this run whose resolved date is empty — the row mirrors the Article
upserted for that document — while a failed document adds no row, and
the rows are regenerated fresh: they do not depend on the carried
collection or the prior report, only on this run's documents and
fingerprint state. -/
theorem C3_missing_report (cfg : RunConfig) (acc : Acc) (f : FileInput) (mo : MetaOut)
    (hns : ¬(cfg.resume = true ∧ lookupD acc.state f.name = f.hash))
    (hwc : word_count (normalize_whitespace
      (if f.pandocText == "" then f.fallbackText else f.pandocText)) ≠ 0)
    (hok : f.inferResp.bind (fun meta => runMeta (pathStem f.name) meta) = Except.ok mo) :
    (∀ rows, missingCsv rows =
      ["sourceFile", "title", "wordCount"] :: rows.map (fun r => [r.1, r.2.1, toString r.2.2])) ∧
    ((stepFile cfg acc f).missingRows =
      (if final_date f.name (normalize_whitespace
          (if f.pandocText == "" then f.fallbackText else f.pandocText)) mo.dateAi = "" then
        acc.missingRows ++ [(f.name, mo.title, word_count (normalize_whitespace
          (if f.pandocText == "" then f.fallbackText else f.pandocText)))]
      else acc.missingRows) ∧
      (stepFile cfg acc f).articles = upsertArticle acc.articles
        { sourceFile := f.name, title := mo.title,
          date := final_date f.name (normalize_whitespace
            (if f.pandocText == "" then f.fallbackText else f.pandocText)) mo.dateAi,
          dateISO := final_date f.name (normalize_whitespace
            (if f.pandocText == "" then f.fallbackText else f.pandocText)) mo.dateAi,
          dateSource := date_source f.name (normalize_whitespace
            (if f.pandocText == "" then f.fallbackText else f.pandocText)) mo.dateAi,
          summary := mo.summary, topics := mo.topics,
          wordCount := word_count (normalize_whitespace
            (if f.pandocText == "" then f.fallbackText else f.pandocText)),
          text := normalize_whitespace
            (if f.pandocText == "" then f.fallbackText else f.pandocText),
          updatedAt := f.procTime }) ∧
    (∀ (g : FileInput) (acc2 : Acc) (e : String),
      ¬(cfg.resume = true ∧ lookupD acc2.state g.name = g.hash) →
      word_count (normalize_whitespace
        (if g.pandocText == "" then g.fallbackText else g.pandocText)) ≠ 0 →
      g.inferResp = Except.error e →
      (stepFile cfg acc2 g).missingRows = acc2.missingRows) ∧
    (∀ (st0 : List (String × String)) (p1 p2 : Option Payload) (files : List FileInput)
      (t1 t2 : String),
      (run cfg st0 p1 files t1).missingRows = (run cfg st0 p2 files t2).missingRows) := by
  have hcond : (cfg.resume && (lookupD acc.state f.name == f.hash)) = false := by
    rcases Bool.eq_false_or_eq_true (cfg.resume && (lookupD acc.state f.name == f.hash)) with
      hc | hc
    · simp only [Bool.and_eq_true, beq_iff_eq] at hc
      exact absurd ⟨hc.1, hc.2⟩ hns
    · exact hc
  have hwc2 : ¬ word_count (normalize_whitespace
      (if f.pandocText = "" then f.fallbackText else f.pandocText)) = 0 := by
    simpa using hwc
  refine ⟨fun rows => rfl, ?_, ?_, ?_⟩
  · constructor
    · simp [stepFile, hcond, hwc2, hok]
    · simp [stepFile, hcond, hwc2, hok]
  · intro g acc2 e hns2 hwc3 herr
    have hcond2 : (cfg.resume && (lookupD acc2.state g.name == g.hash)) = false := by
      rcases Bool.eq_false_or_eq_true (cfg.resume &&
        (lookupD acc2.state g.name == g.hash)) with hc | hc
      · simp only [Bool.and_eq_true, beq_iff_eq] at hc
        exact absurd ⟨hc.1, hc.2⟩ hns2
      · exact hc
    have hwc4 : ¬ word_count (normalize_whitespace
        (if g.pandocText = "" then g.fallbackText else g.pandocText)) = 0 := by
      simpa using hwc3
    simp [stepFile, hcond2, hwc4, herr, Except.bind]
  · intro st0 p1 p2 files t1 t2
    exact (foldl_nonart cfg files (runStart cfg st0 p1 files) (runStart cfg st0 p2 files)
      rfl rfl rfl rfl rfl).2.2.2.2

/-- Witness for C3 (amended) at the concrete dateless document. -/
theorem C3_missing_report_witness :
    (stepFile c3cfg acc0 c3file).missingRows = acc0.missingRows ++ [("b.docx", "T", 2)] := by
  have h := (C3_missing_report c3cfg acc0 c3file
    { title := "T", dateAi := "", summary := "S", topics := [] }
    (by decide) (by decide) rfl).2.1.1
  rw [h]
  decide

/-! ## C1: the second incremental run over an unchanged folder -/

theorem lookupD_eq (m : List (String × String)) (k : String) :
    lookupD m k = (lookupA m k).getD "" := by
  rw [lookupD, lookupA]
  cases m.find? (fun kv => kv.1 == k) <;> rfl

theorem lookupD_dictUpsert_same (m : List (String × String)) (k v : String) :
    lookupD (dictUpsert m k v) k = v := by
  rw [lookupD_eq, lookupA_dictUpsert_same]
  rfl

theorem lookupD_dictUpsert_other (m : List (String × String)) (k k' v : String)
    (h : k' ≠ k) : lookupD (dictUpsert m k v) k' = lookupD m k' := by
  rw [lookupD_eq, lookupA_dictUpsert_other m k k' v h, ← lookupD_eq]

theorem stepFile_state_eq (cfg : RunConfig) (acc : Acc) (f : FileInput) :
    ((stepFile cfg acc f).state = acc.state ∧ lookupD acc.state f.name = f.hash) ∨
    (stepFile cfg acc f).state = dictUpsert acc.state f.name f.hash := by
  simp only [stepFile]
  by_cases h1 : (cfg.resume && (lookupD acc.state f.name == f.hash)) = true
  · left
    rw [if_pos h1]
    refine ⟨rfl, ?_⟩
    simp only [Bool.and_eq_true, beq_iff_eq] at h1
    exact h1.2
  · right
    rw [if_neg h1]
    repeat' split
    all_goals rfl

theorem stepFile_lookup_self (cfg : RunConfig) (acc : Acc) (f : FileInput) :
    lookupD (stepFile cfg acc f).state f.name = f.hash := by
  rcases stepFile_state_eq cfg acc f with ⟨he, hl⟩ | he
  · rw [he]
    exact hl
  · rw [he]
    exact lookupD_dictUpsert_same acc.state f.name f.hash

theorem stepFile_lookup_other (cfg : RunConfig) (acc : Acc) (f : FileInput) (k : String)
    (h : k ≠ f.name) : lookupD (stepFile cfg acc f).state k = lookupD acc.state k := by
  rcases stepFile_state_eq cfg acc f with ⟨he, -⟩ | he <;> rw [he]
  exact lookupD_dictUpsert_other acc.state f.name k f.hash h

theorem foldl_lookup_untouched (cfg : RunConfig) : ∀ (l : List FileInput) (acc : Acc)
    (k : String), (∀ g ∈ l, k ≠ g.name) →
    lookupD (l.foldl (stepFile cfg) acc).state k = lookupD acc.state k := by
  intro l
  induction l with
  | nil => intro acc k h; rfl
  | cons g rest ih =>
    intro acc k h
    rw [List.foldl_cons, ih (stepFile cfg acc g) k
      (fun g2 hg2 => h g2 (List.mem_cons_of_mem g hg2))]
    exact stepFile_lookup_other cfg acc g k (h g (List.mem_cons_self g rest))

theorem foldl_lookup_self (cfg : RunConfig) : ∀ (l : List FileInput) (acc : Acc),
    (l.map (fun f => f.name)).Nodup →
    ∀ f ∈ l, lookupD (l.foldl (stepFile cfg) acc).state f.name = f.hash := by
  intro l
  induction l with
  | nil => intro acc _ f hf; simp at hf
  | cons g rest ih =>
    intro acc hnd f hf
    rw [List.map_cons, List.nodup_cons] at hnd
    rcases List.mem_cons.mp hf with rfl | hf2
    · rw [List.foldl_cons, foldl_lookup_untouched cfg rest (stepFile cfg acc f) f.name ?hne]
      · exact stepFile_lookup_self cfg acc f
      · intro g2 hg2 he
        exact hnd.1 (he ▸ List.mem_map.mpr ⟨g2, hg2, rfl⟩)
    · rw [List.foldl_cons]
      exact ih (stepFile cfg acc g) hnd.2 f hf2

/-- Projection of the run's final fingerprint state. -/
theorem run_state_eq (cfg : RunConfig) (st0 : List (String × String))
    (prior : Option Payload) (files : List FileInput) (t : String) :
    (run cfg st0 prior files t).state =
      (files.foldl (stepFile cfg) (runStart cfg st0 prior files)).state := rfl

/-- After any run, every current document's fingerprint entry equals its
current hash (the folder listing has distinct names). -/
theorem run_lookup_self (cfg : RunConfig) (st0 : List (String × String))
    (prior : Option Payload) (files : List FileInput) (t : String)
    (hnd : (files.map (fun f => f.name)).Nodup) :
    ∀ f ∈ files, lookupD (run cfg st0 prior files t).state f.name = f.hash := by
  intro f hf
  rw [run_state_eq]
  exact foldl_lookup_self cfg files (runStart cfg st0 prior files) hnd f hf

theorem foldl_skip_all (cfg : RunConfig) (hres : cfg.resume = true) :
    ∀ (l : List FileInput) (acc : Acc),
    (∀ f ∈ l, lookupD acc.state f.name = f.hash) → l.foldl (stepFile cfg) acc = acc := by
  intro l
  induction l with
  | nil => intro acc _; rfl
  | cons f rest ih =>
    intro acc h
    rw [List.foldl_cons, stepFile_skip cfg acc f hres (h f (List.mem_cons_self f rest))]
    exact ih acc (fun g hg => h g (List.mem_cons_of_mem f hg))

theorem dedup_fold_append : ∀ (arts : List Article) (m : List (String × Article)),
    (∀ a ∈ arts, a.sourceFile ≠ "") →
    (m.map Prod.fst ++ arts.map (fun a => a.sourceFile)).Nodup →
    arts.foldl
      (fun m a => if a.sourceFile == "" then m else dictUpsert m a.sourceFile a) m =
      m ++ arts.map (fun a => (a.sourceFile, a)) := by
  intro arts
  induction arts with
  | nil => intro m _ _; simp
  | cons a rest ih =>
    intro m hne hnd
    have hsf : (a.sourceFile == "") = false := by
      simpa using hne a (List.mem_cons_self a rest)
    rw [List.foldl_cons, hsf]
    simp only [Bool.false_eq_true, if_false]
    have hnotkey : a.sourceFile ∉ m.map Prod.fst := by
      intro hmem
      have hdisj := (List.nodup_append.mp hnd).2.2
      exact hdisj hmem (by
        rw [List.map_cons]
        exact List.mem_cons_self a.sourceFile (rest.map (fun a => a.sourceFile)))
    have hany : m.any (fun kv => kv.1 == a.sourceFile) = false := by
      rcases Bool.eq_false_or_eq_true (m.any (fun kv => kv.1 == a.sourceFile)) with hc | hc
      · rcases List.any_eq_true.mp hc with ⟨kv, hkv, hbeq⟩
        exact absurd (List.mem_map.mpr ⟨kv, hkv, by simpa using hbeq⟩) hnotkey
      · exact hc
    rw [dictUpsert, hany]
    simp only [Bool.false_eq_true, if_false]
    rw [ih (m ++ [(a.sourceFile, a)])
      (fun b hb => hne b (List.mem_cons_of_mem a hb)) ?hnd2]
    · simp
    · rw [List.map_append]
      simpa using hnd

theorem dedup_of_unique {arts : List Article}
    (hne : ∀ a ∈ arts, a.sourceFile ≠ "")
    (hnd : (arts.map (fun a => a.sourceFile)).Nodup) : dedupArticles arts = arts := by
  rw [dedupArticles, dedup_fold_append arts [] hne (by simpa using hnd)]
  simp only [List.nil_append, List.map_map]
  have hid : ((fun kv : String × Article => kv.2) ∘ fun a => (a.sourceFile, a)) = id := rfl
  rw [hid, List.map_id]

/-- A document whose inference call raises, for the C1 counterexample. -/
def c1file : FileInput :=
  { name := "a.docx", hash := "h1", pandocText := "hello world", fallbackText := "",
    inferResp := Except.error "boom", procTime := "T1" }

/-- The incremental config for the C1 counterexample. -/
def c1cfg : RunConfig := { resume := true, prune := false }

/-- First run for the C1 counterexample. -/
def c1r1 : RunResult := run c1cfg [] Option.none [c1file] "2024-01-01T00:00:00"

/-- Second run over the unchanged folder, five seconds later. -/
def c1r2 : RunResult := run c1cfg c1r1.state (some c1r1.payload) [c1file] "2024-01-01T00:00:05"

/-- C1 counterexample: the second incremental run over the unchanged
folder does make zero updates, but the written collection is not
byte-identical to the first run's — `generatedAt` carries the second
run's clock reading and the error list is rebuilt empty, so both fields
differ. -/
theorem C1_counterexample :
    c1r2.updated = 0 ∧
    c1r2.payload ≠ c1r1.payload ∧
    c1r1.payload.errors ≠ [] ∧
    c1r2.payload.errors = [] ∧
    c1r2.payload.generatedAt ≠ c1r1.payload.generatedAt := by
  decide

/-- C1 (amended): a second run with `--resume` over the unchanged folder
(same names, hashes, and flags; folder names distinct) touches nothing:
zero updates, zero processed, the fingerprint state and the article
sequence are exactly the first run's, and the error list and report are
rebuilt empty — but the payload is not byte-identical in general, since
`generatedAt` is the second run's clock reading and any first-run errors
are absent from the second payload. -/
theorem C1_second_run (cfg : RunConfig) (st0 : List (String × String))
    (prior : Option Payload) (files : List FileInput) (t1 t2 : String)
    (hnd : (files.map (fun f => f.name)).Nodup) :
    (run { resume := true, prune := cfg.prune } (run cfg st0 prior files t1).state
        (some (run cfg st0 prior files t1).payload) files t2).updated = 0 ∧
    (run { resume := true, prune := cfg.prune } (run cfg st0 prior files t1).state
        (some (run cfg st0 prior files t1).payload) files t2).processed = 0 ∧
    (run { resume := true, prune := cfg.prune } (run cfg st0 prior files t1).state
        (some (run cfg st0 prior files t1).payload) files t2).payload.errors = [] ∧
    (run { resume := true, prune := cfg.prune } (run cfg st0 prior files t1).state
        (some (run cfg st0 prior files t1).payload) files t2).missingRows = [] ∧
    (run { resume := true, prune := cfg.prune } (run cfg st0 prior files t1).state
        (some (run cfg st0 prior files t1).payload) files t2).state =
      (run cfg st0 prior files t1).state ∧
    (run { resume := true, prune := cfg.prune } (run cfg st0 prior files t1).state
        (some (run cfg st0 prior files t1).payload) files t2).payload.generatedAt = t2 ∧
    (run { resume := true, prune := cfg.prune } (run cfg st0 prior files t1).state
        (some (run cfg st0 prior files t1).payload) files t2).payload.articles =
      (run cfg st0 prior files t1).payload.articles := by
  have hlook : ∀ f ∈ files,
      lookupD (runStart { resume := true, prune := cfg.prune }
        (run cfg st0 prior files t1).state
        (some (run cfg st0 prior files t1).payload) files).state f.name = f.hash := by
    intro f hf
    exact run_lookup_self cfg st0 prior files t1 hnd f hf
  have hfold := foldl_skip_all { resume := true, prune := cfg.prune } rfl files
    (runStart { resume := true, prune := cfg.prune } (run cfg st0 prior files t1).state
      (some (run cfg st0 prior files t1).payload) files) hlook
  have hstart : (runStart { resume := true, prune := cfg.prune }
      (run cfg st0 prior files t1).state
      (some (run cfg st0 prior files t1).payload) files).articles =
      (run cfg st0 prior files t1).payload.articles := by
    rw [runStart]
    by_cases hp : cfg.prune = true
    · simp only [hp, if_true]
      rw [pruneArticles]
      apply List.filter_eq_self.mpr
      intro a ha
      have hmem := runArticles_subset_names cfg st0 prior files t1 hp a
        (by simpa [carriedArticles] using ha)
      have hc : (files.map (fun f => f.name)).contains a.sourceFile = true := by
        rw [List.contains_iff_exists_mem_beq]
        exact ⟨a.sourceFile, hmem, by simp⟩
      simp [hc]
      exact Or.inr (List.mem_map.mp hmem)
    · have hp2 : cfg.prune = false := by
        rcases Bool.eq_false_or_eq_true cfg.prune with hc | hc
        · exact absurd hc hp
        · exact hc
      simp only [hp2, Bool.false_eq_true, if_false]
      rfl
  refine ⟨?_, ?_, ?_, ?_, ?_, rfl, ?_⟩
  · show (files.foldl (stepFile { resume := true, prune := cfg.prune })
      (runStart { resume := true, prune := cfg.prune } (run cfg st0 prior files t1).state
        (some (run cfg st0 prior files t1).payload) files)).updated = 0
    rw [hfold]
    rfl
  · show (files.foldl (stepFile { resume := true, prune := cfg.prune })
      (runStart { resume := true, prune := cfg.prune } (run cfg st0 prior files t1).state
        (some (run cfg st0 prior files t1).payload) files)).processed = 0
    rw [hfold]
    rfl
  · show (files.foldl (stepFile { resume := true, prune := cfg.prune })
      (runStart { resume := true, prune := cfg.prune } (run cfg st0 prior files t1).state
        (some (run cfg st0 prior files t1).payload) files)).errors = []
    rw [hfold]
    rfl
  · show (files.foldl (stepFile { resume := true, prune := cfg.prune })
      (runStart { resume := true, prune := cfg.prune } (run cfg st0 prior files t1).state
        (some (run cfg st0 prior files t1).payload) files)).missingRows = []
    rw [hfold]
    rfl
  · show (files.foldl (stepFile { resume := true, prune := cfg.prune })
      (runStart { resume := true, prune := cfg.prune } (run cfg st0 prior files t1).state
        (some (run cfg st0 prior files t1).payload) files)).state =
      (run cfg st0 prior files t1).state
    rw [hfold]
    rfl
  · rw [run_articles_eq, hfold, hstart,
      dedup_of_unique (runArticles_ne_empty cfg st0 prior files t1)
        (runArticles_keys_nodup cfg st0 prior files t1)]
    exact sortArticles_of_sorted (by
      rw [run_articles_eq]
      exact sortArticles_sorted _)

/-- A well-behaved document for the C1 witness. -/
def c1wfile : FileInput :=
  { name := "w.docx", hash := "hw", pandocText := "some words 2024-03-05", fallbackText := "",
    inferResp := Except.ok [("title", PyVal.str "W"), ("date", PyVal.str ""),
      ("summary", PyVal.str "s"), ("topics", PyVal.list [PyVal.str "x"])],
    procTime := "TW" }

/-- Witness for C1 (amended) on a concrete one-document folder. -/
theorem C1_second_run_witness :
    (run { resume := true, prune := cfg0.prune } (run cfg0 [] Option.none [c1wfile] "t1").state
        (some (run cfg0 [] Option.none [c1wfile] "t1").payload) [c1wfile] "t2").updated = 0 ∧
    (run { resume := true, prune := cfg0.prune } (run cfg0 [] Option.none [c1wfile] "t1").state
        (some (run cfg0 [] Option.none [c1wfile] "t1").payload) [c1wfile] "t2").processed = 0 ∧
    (run { resume := true, prune := cfg0.prune } (run cfg0 [] Option.none [c1wfile] "t1").state
        (some (run cfg0 [] Option.none [c1wfile] "t1").payload) [c1wfile] "t2").payload.errors
      = [] ∧
    (run { resume := true, prune := cfg0.prune } (run cfg0 [] Option.none [c1wfile] "t1").state
        (some (run cfg0 [] Option.none [c1wfile] "t1").payload) [c1wfile] "t2").missingRows
      = [] ∧
    (run { resume := true, prune := cfg0.prune } (run cfg0 [] Option.none [c1wfile] "t1").state
        (some (run cfg0 [] Option.none [c1wfile] "t1").payload) [c1wfile] "t2").state =
      (run cfg0 [] Option.none [c1wfile] "t1").state ∧
    (run { resume := true, prune := cfg0.prune } (run cfg0 [] Option.none [c1wfile] "t1").state
        (some (run cfg0 [] Option.none [c1wfile] "t1").payload) [c1wfile]
          "t2").payload.generatedAt = "t2" ∧
    (run { resume := true, prune := cfg0.prune } (run cfg0 [] Option.none [c1wfile] "t1").state
        (some (run cfg0 [] Option.none [c1wfile] "t1").payload) [c1wfile]
          "t2").payload.articles =
      (run cfg0 [] Option.none [c1wfile] "t1").payload.articles :=
  C1_second_run cfg0 [] Option.none [c1wfile] "t1" "t2" (by decide)

end Kidder
